import Mathlib

/-!
# gobench over QUIC: counters, worker loop, configuration

A shallow embedding of `src/gobench.go`.

* Go `int64` values are integers kept in the int64 range by `wrap64`
  (Go integer arithmetic wraps around on overflow).
* The package-level flag variables are gathered in `Flags`.
* External collaborators are inputs of the model: the file system
  (`FileSystem`), the result of the embedded `net.Conn` call and the clock
  (`IoReturn`, `now`), and the HTTP library (`Executor`): which URLs
  `http.NewRequest` accepts, and the result of `myclient.Do` for every attempt.
* The worker `client` is a step machine (`step`) whose program points are the
  lines of the nested loop, with the fault exit of lines 258-263 as a point of
  its own, reached when `http.NewRequest` leaves a nil request.
* `history` and `passes` in `State` are ghost components: they record what
  the loop did and are never read by it, except that the length of `history`
  numbers the attempts for the executor.
-/

namespace Gobench

/-! ## Machine integers -/

/-- The largest int64, `(1 << 63) - 1`. -/
def maxInt64 : Int := 9223372036854775807

/-- The smallest int64. -/
def minInt64 : Int := -9223372036854775808

/-- Two's-complement wrap-around of an integer into the int64 range. -/
def wrap64 (x : Int) : Int :=
  (x + 9223372036854775808) % 18446744073709551616 - 9223372036854775808

/-- Membership in the int64 range. -/
def isInt64 (x : Int) : Prop := minInt64 ≤ x ∧ x ≤ maxInt64

instance decidableIsInt64 (x : Int) : Decidable (isInt64 x) := by
  unfold isInt64; infer_instance

/-- A non-nil Go `error` value; `io.EOF` is the one the code compares with. -/
inductive GoError where
  | eof
  | other (msg : String)
deriving DecidableEq, Repr

/-! ## Data model (lines 24-62) -/

/-- The package-level flag variables (lines 24-37). -/
structure Flags where
  requests : Int
  period : Int
  clients : Int
  url : String
  urlsFilePath : String
  keepAlive : Bool
  keepQuicConn : Bool
  turnonLog : Bool
  postDataFilePath : String
  connectTimeout : Int
  writeTimeout : Int
  readTimeout : Int
deriving DecidableEq, Repr

/-- The flag defaults registered in `init` (lines 86-99). -/
def Flags.defaults : Flags :=
  { requests := -1, period := -1, clients := 100, url := "", urlsFilePath := "",
    keepAlive := true, keepQuicConn := true, turnonLog := false,
    postDataFilePath := "", connectTimeout := 5000, writeTimeout := 5000,
    readTimeout := 5000 }

/-- The struct `Configuration` (lines 39-46). -/
structure Configuration where
  urls : List String
  method : String
  postData : List UInt8
  requests : Int
  period : Int
  keepAlive : Bool
deriving DecidableEq, Repr

/-- The struct `Result` (lines 48-55). -/
structure Result where
  requests : Int
  success : Int
  networkFailed : Int
  badFailed : Int
  readThroughput : Int
  writeThroughput : Int
deriving DecidableEq, Repr

/-- The value of `&Result{}`: every counter zero. -/
def Result.zero : Result := ⟨0, 0, 0, 0, 0, 0⟩

/-! ## Instrumented connection (lines 57-84) -/

/-- What `MyConn` touches of its embedded `net.Conn`: the two deadlines. -/
structure Conn where
  readDeadline : Option Int
  writeDeadline : Option Int
deriving DecidableEq, Repr

/-- The struct `MyConn` (lines 57-62); `result` stands for the pointee. -/
structure MyConn where
  Conn : Conn
  readTimeout : Int
  writeTimeout : Int
  result : Result
deriving DecidableEq, Repr

/-- The pair `(n, err)` returned by a `Read` or `Write`; `err = none` is nil. -/
structure IoReturn where
  n : Int
  err : Option GoError
deriving DecidableEq, Repr

/-- The method `MyConn.Read` (lines 64-73). `under` is what `this.Conn.Read(b)`
returned and `now` is `time.Now()`. -/
def MyConn.Read (this : MyConn) (under : IoReturn) (now : Int) : MyConn × IoReturn :=
  if under.err = none then
    ({ this with
        result := { this.result with
          readThroughput := wrap64 (this.result.readThroughput + wrap64 under.n) },
        Conn := { this.Conn with readDeadline := some (now + this.readTimeout) } },
      under)
  else
    (this, under)

/-- The method `MyConn.Write` (lines 75-84). -/
def MyConn.Write (this : MyConn) (under : IoReturn) (now : Int) : MyConn × IoReturn :=
  if under.err = none then
    ({ this with
        result := { this.result with
          writeThroughput := wrap64 (this.result.writeThroughput + wrap64 under.n) },
        Conn := { this.Conn with writeDeadline := some (now + this.writeTimeout) } },
      under)
  else
    (this, under)

/-- A sequence of `Read` calls on one connection, in order. -/
def readCalls (this : MyConn) : List (IoReturn × Int) → MyConn
  | [] => this
  | (under, now) :: rest => readCalls (this.Read under now).1 rest

/-- Total of the byte counts returned by all the calls. -/
def bytesReturned (calls : List (IoReturn × Int)) : Int :=
  (calls.map fun c => c.1.n).sum

/-- Total of the byte counts returned by the calls whose error is nil. -/
def bytesReadOk (calls : List (IoReturn × Int)) : Int :=
  ((calls.filter fun c => c.1.err = none).map fun c => c.1.n).sum

/-! ## Aggregation (lines 101-116) -/

/-- One round of the `range` loop of `printResults` (lines 110-115). -/
def addResult (total result : Result) : Result :=
  { requests := wrap64 (total.requests + result.requests),
    success := wrap64 (total.success + result.success),
    networkFailed := wrap64 (total.networkFailed + result.networkFailed),
    badFailed := wrap64 (total.badFailed + result.badFailed),
    readThroughput := wrap64 (total.readThroughput + result.readThroughput),
    writeThroughput := wrap64 (total.writeThroughput + result.writeThroughput) }

/-- The six totals of `printResults` (lines 102-116). The argument is the map's
values in the order the `range` loop happens to visit them. -/
def printResults (results : List Result) : Result :=
  results.foldl addResult Result.zero

/-- The Go comparison `requests == success + networkFailed + badFailed`. -/
def balanced (r : Result) : Prop :=
  r.requests = wrap64 (wrap64 (r.success + r.networkFailed) + r.badFailed)

instance decidableBalanced (r : Result) : Decidable (balanced r) := by
  unfold balanced; infer_instance

/-! ## Configuration (lines 131-232) -/

/-- A file as `readLines` sees it through `bufio.Reader.ReadLine`: the
`(part, isPrefix)` pairs returned with a nil error, then the error that ends
the loop. -/
structure LineFile where
  reads : List (String × Bool)
  final : GoError
deriving DecidableEq, Repr

/-- The files the program may open. -/
structure FileSystem where
  openLines : String → Except GoError LineFile
  readFile : String → Except GoError (List UInt8)

/-- The loop of `readLines` (lines 144-153): `buffer` collects the parts of a
long line, a part that is not a prefix completes the line. -/
def readLinesLoop : List (String × Bool) → String → List String → List String
  | [], _, lines => lines
  | (part, isPrefix) :: rest, buffer, lines =>
    if isPrefix then readLinesLoop rest (buffer ++ part) lines
    else readLinesLoop rest "" (lines ++ [buffer ++ part])

/-- Follows the spec's words ("a line-delimited URL-list file", "one URL per
line"): the lines of a file, in file order, given the fragments in which the
reader delivers it. A fragment marked as a prefix is the start of a line that
goes on in the next fragment; a last line cut short by the end of the file is
a line too. -/
def fileLines : List (String × Bool) → List String
  | [] => []
  | (part, false) :: rest => part :: fileLines rest
  | (part, true) :: rest =>
    match fileLines rest with
    | [] => [part]
    | line :: lines => (part ++ line) :: lines

/-- Every fragment marked as a prefix is followed by another fragment: the
file does not end in the middle of a line longer than the reader's buffer. -/
def endsWithWholeLine : List (String × Bool) → Bool
  | [] => true
  | (_, false) :: rest => endsWithWholeLine rest
  | (_, true) :: rest => !rest.isEmpty && endsWithWholeLine rest

/-- The function `readLines` (lines 131-158). -/
def readLines (fs : FileSystem) (path : String) : List String × Option GoError :=
  match fs.openLines path with
  | .error e => ([], some e)
  | .ok file =>
    (readLinesLoop file.reads "" [],
      if file.final = GoError.eof then none else some file.final)

/-- What `NewConfiguration` hands back: the configuration, and the duration (in
nanoseconds) after which the process signals itself, when one was armed. -/
structure Startup where
  configuration : Configuration
  killAfter : Option Int
deriving DecidableEq, Repr

/-- Lines 205-213: the URL-list file replaces `urls`; a read error is fatal. -/
def loadUrlsFile (flags : Flags) (fs : FileSystem) (c : Configuration) :
    Except Int Configuration :=
  if flags.urlsFilePath ≠ "" then
    match readLines fs flags.urlsFilePath with
    | (fileLines, none) => .ok { c with urls := fileLines }
    | (_, some _) => .error 1
  else .ok c

/-- Lines 215-217: the single URL is appended. -/
def appendUrl (flags : Flags) (c : Configuration) : Configuration :=
  if flags.url ≠ "" then { c with urls := c.urls ++ [flags.url] } else c

/-- Lines 219-229: a POST body file switches the method to POST. -/
def loadPostData (flags : Flags) (fs : FileSystem) (c : Configuration) :
    Except Int Configuration :=
  if flags.postDataFilePath ≠ "" then
    match fs.readFile flags.postDataFilePath with
    | .ok data => .ok { c with method := "POST", postData := data }
    | .error _ => .error 1
  else .ok c

/-- Lines 179-203: the configuration before the URL sources are read. The
limit is `(1 << 63) - 1` unless `-r` was given. -/
def initialConfiguration (flags : Flags) : Configuration :=
  let c0 : Configuration :=
    { urls := [], method := "GET", postData := [], keepAlive := flags.keepAlive,
      requests := maxInt64, period := 0 }
  let c1 := if flags.period ≠ -1 then { c0 with period := flags.period } else c0
  if flags.requests ≠ -1 then { c1 with requests := flags.requests } else c1

/-- Lines 186-199: with a period, the process signals itself after
`time.Duration(period) * time.Second`, an int64 number of nanoseconds. -/
def periodTimer (flags : Flags) : Option Int :=
  if flags.period ≠ -1 then some (wrap64 (wrap64 flags.period * 1000000000)) else none

/-- The function `NewConfiguration` (lines 160-232). `.error code` is
`os.Exit(code)` (also through `log.Fatalf`). -/
def NewConfiguration (flags : Flags) (fs : FileSystem) : Except Int Startup :=
  if flags.urlsFilePath = "" ∧ flags.url = "" then .error 1
  else if flags.requests = -1 ∧ flags.period = -1 then .error 1
  else if flags.requests ≠ -1 ∧ flags.period ≠ -1 then .error 1
  else
    match loadUrlsFile flags fs (initialConfiguration flags) with
    | .error code => .error code
    | .ok c3 =>
      match loadPostData flags fs (appendUrl flags c3) with
      | .error code => .error code
      | .ok c5 => .ok { configuration := c5, killAfter := periodTimer flags }

/-- Every input file the flags name can be read to its end. -/
def inputsReadable (flags : Flags) (fs : FileSystem) : Prop :=
  (flags.urlsFilePath ≠ "" →
    ∃ file, fs.openLines flags.urlsFilePath = .ok file ∧ file.final = GoError.eof) ∧
  (flags.postDataFilePath ≠ "" → ∃ data, fs.readFile flags.postDataFilePath = .ok data)

/-- The start of `main` up to the dispatch loop (lines 329-345): the workers'
fresh Results, one per client, exist only once `NewConfiguration` returned.
With a negative `-c`, `done.Add(clients)` (line 339) panics and the process
exits with code 2, no worker dispatched. -/
def main (flags : Flags) (fs : FileSystem) : Except Int (Startup × List Result) :=
  match NewConfiguration flags fs with
  | .error code => .error code
  | .ok started =>
    if flags.clients < 0 then .error 2
    else .ok (started, List.replicate flags.clients.toNat Result.zero)

/-! ## The worker (lines 250-306) -/

/-- The `http.Client` built by `MyClient`: its transport is
`gospdyquic.NewRoundTripper(keepQuicConn)` and nothing else is set. -/
structure HttpClient where
  keepQuicConn : Bool
deriving DecidableEq, Repr

/-- The function `MyClient` (lines 250-255). -/
def MyClient (flags : Flags) (_result : Result)
    (_connectTimeout _readTimeout _writeTimeout : Int) : HttpClient :=
  { keepQuicConn := flags.keepQuicConn }

/-- The request of lines 271-277. -/
structure Request where
  method : String
  url : String
  body : List UInt8
  connection : String
deriving DecidableEq, Repr

/-- The request of lines 271-277 when `http.NewRequest` succeeds: method, URL
and body, and the `Connection` header. -/
def buildRequest (configuration : Configuration) (tmpUrl : String) : Request :=
  { method := configuration.method, url := tmpUrl, body := configuration.postData,
    connection := if configuration.keepAlive = true then "keep-alive" else "close" }

/-- A response as the loop reads it: the status code, and the error of
`ioutil.ReadAll(resp.Body)` if draining fails. -/
structure Response where
  StatusCode : Int
  errRead : Option GoError
deriving DecidableEq, Repr

/-- The pair `(resp, err)` of `myclient.Do(req)`. -/
inductive DoResult where
  | failed (err : GoError)
  | response (resp : Response)
deriving DecidableEq, Repr

/-- The HTTP library as the worker uses it: whether `http.NewRequest` accepts a
URL (it does not when `url.Parse` rejects it), and the request executor, the
result of `myclient.Do` for the attempt with the given number. -/
structure Executor where
  parses : String → Bool
  Do : HttpClient → Nat → Request → DoResult

/-- Line 271: `req, _ := http.NewRequest(...)`; `none` is the nil request left
when the dropped error was not nil. -/
def newRequest (ex : Executor) (configuration : Configuration) (tmpUrl : String) :
    Option Request :=
  if ex.parses tmpUrl then some (buildRequest configuration tmpUrl) else none

/-- Lines 282-299: exactly one of the three outcome counters goes up. -/
def classify (r : DoResult) (result : Result) : Result :=
  match r with
  | .failed _ => { result with networkFailed := wrap64 (result.networkFailed + 1) }
  | .response resp =>
    match resp.errRead with
    | some _ => { result with networkFailed := wrap64 (result.networkFailed + 1) }
    | none =>
      if resp.StatusCode = 200 then { result with success := wrap64 (result.success + 1) }
      else { result with badFailed := wrap64 (result.badFailed + 1) }

/-- Line 280: `result.requests++`. -/
def countRequest (result : Result) : Result :=
  { result with requests := wrap64 (result.requests + 1) }

/-- Program points of `client`. -/
inductive Pc where
  /-- line 269, about to test `result.requests < configuration.requests` -/
  | top
  /-- line 270, the URLs of this pass still to visit -/
  | pass (rest : List String)
  /-- after line 279: `myclient.Do` has returned -/
  | called (rest : List String) (r : DoResult)
  /-- after line 280: the attempt is counted, not yet classified -/
  | counted (rest : List String) (r : DoResult)
  /-- line 305, the loop is over -/
  | done
  /-- lines 258-263: a panic was recovered and `os.Exit(1)` called -/
  | faulted
deriving DecidableEq, Repr

/-- A worker's state: program point and its Result, with the ghost history of
classified attempts and the number of completed passes. -/
structure State where
  pc : Pc
  result : Result
  history : List DoResult
  passes : Nat
deriving DecidableEq, Repr

/-- The state in which the loop is entered. -/
def State.init (r0 : Result) : State :=
  { pc := .top, result := r0, history := [], passes := 0 }

/-- One step of `client` (lines 269-303); `none` once the loop is over or the
process has exited. On a nil request `req.Header.Add` (lines 273-277) panics,
which the deferred function of lines 258-263 turns into `os.Exit(1)`. -/
def step (flags : Flags) (configuration : Configuration) (ex : Executor)
    (s : State) : Option State :=
  match s.pc with
  | .top =>
    if s.result.requests < configuration.requests then
      some { s with pc := .pass configuration.urls }
    else some { s with pc := .done }
  | .pass [] => some { s with pc := .top, passes := s.passes + 1 }
  | .pass (tmpUrl :: rest) =>
    let myclient := MyClient flags s.result flags.connectTimeout flags.readTimeout
      flags.writeTimeout
    match newRequest ex configuration tmpUrl with
    | none => some { s with pc := .faulted }
    | some req => some { s with pc := .called rest (ex.Do myclient s.history.length req) }
  | .called rest r => some { s with pc := .counted rest r, result := countRequest s.result }
  | .counted rest r =>
    some { s with pc := .pass rest, result := classify r s.result, history := s.history ++ [r] }
  | .done => none
  | .faulted => none

/-- Running `k` steps. -/
def stepsN (flags : Flags) (configuration : Configuration) (ex : Executor) :
    Nat → State → Option State
  | 0, s => some s
  | k + 1, s =>
    match step flags configuration ex s with
    | none => none
    | some s' => stepsN flags configuration ex k s'

/-- The states the worker passes through when started on the Result `r0`. -/
def Reachable (flags : Flags) (configuration : Configuration) (ex : Executor)
    (r0 : Result) (s : State) : Prop :=
  ∃ k, stepsN flags configuration ex k (State.init r0) = some s

/-- The worker leaves the loop. -/
def Terminates (flags : Flags) (configuration : Configuration) (ex : Executor)
    (r0 : Result) : Prop :=
  ∃ s, Reachable flags configuration ex r0 s ∧ s.pc = .done

/-- Attempts that count as `success`: drained, status 200. -/
def isSuccess : DoResult → Bool
  | .response ⟨code, none⟩ => code == 200
  | _ => false

/-- Attempts that count as `badFailed`: drained, another status. -/
def isBad : DoResult → Bool
  | .response ⟨code, none⟩ => code != 200
  | _ => false

/-- Attempts that count as `networkFailed`: transport or drain error. -/
def isNetworkFailure : DoResult → Bool
  | .failed _ => true
  | .response ⟨_, some _⟩ => true
  | .response ⟨_, none⟩ => false

/-- Attempts counted at a program point but not yet classified. -/
def Pc.pending : Pc → Int
  | .counted _ _ => 1
  | _ => 0

/-- The four counters agree with the history of classified attempts. -/
def Tallied (s : State) : Prop :=
  s.result.success = wrap64 (s.history.countP isSuccess) ∧
  s.result.networkFailed = wrap64 (s.history.countP isNetworkFailure) ∧
  s.result.badFailed = wrap64 (s.history.countP isBad) ∧
  s.result.requests = wrap64 (s.history.length + s.pc.pending)

/-- Where the worker stands in its passes: the history holds the attempts of
the completed passes and of the URLs already visited in the current one, and
the answer in hand is the executor's for the next attempt. -/
def Positioned (flags : Flags) (configuration : Configuration) (ex : Executor)
    (s : State) : Prop :=
  match s.pc with
  | .top => s.history.length = s.passes * configuration.urls.length
  | .pass rest => ∃ visited, configuration.urls = visited ++ rest ∧
      s.history.length = s.passes * configuration.urls.length + visited.length
  | .called rest r => ∃ visited tmpUrl req, configuration.urls = visited ++ tmpUrl :: rest ∧
      s.history.length = s.passes * configuration.urls.length + visited.length ∧
      newRequest ex configuration tmpUrl = some req ∧
      r = ex.Do (MyClient flags Result.zero flags.connectTimeout flags.readTimeout
        flags.writeTimeout) s.history.length req
  | .counted rest r => ∃ visited tmpUrl req, configuration.urls = visited ++ tmpUrl :: rest ∧
      s.history.length = s.passes * configuration.urls.length + visited.length ∧
      newRequest ex configuration tmpUrl = some req ∧
      r = ex.Do (MyClient flags Result.zero flags.connectTimeout flags.readTimeout
        flags.writeTimeout) s.history.length req
  | .done => s.history.length = s.passes * configuration.urls.length
  | .faulted => True

/-- The history is the executor's answers: entry `i` is the answer to attempt
`i`, made for the URL at place `i mod U` of the URL sequence. -/
def Traced (flags : Flags) (configuration : Configuration) (ex : Executor)
    (history : List DoResult) : Prop :=
  ∀ i r, history[i]? = some r →
    ∃ tmpUrl req, configuration.urls[i % configuration.urls.length]? = some tmpUrl ∧
      newRequest ex configuration tmpUrl = some req ∧
      r = ex.Do (MyClient flags Result.zero flags.connectTimeout flags.readTimeout
        flags.writeTimeout) i req

/-- Number of passes after which `k * U` first reaches a limit `R > 0`. -/
def passesNeeded (R : Int) (U : Nat) : Nat := (R.toNat + U - 1) / U

/-- One whole pass over `urls`, all of which parse, in one go: the Result and
history after it. -/
def runPass (flags : Flags) (configuration : Configuration) (ex : Executor) :
    List String → Result × List DoResult → Result × List DoResult
  | [], x => x
  | tmpUrl :: rest, (result, history) =>
    let r := ex.Do (MyClient flags result flags.connectTimeout flags.readTimeout
      flags.writeTimeout) history.length (buildRequest configuration tmpUrl)
    runPass flags configuration ex rest (classify r (countRequest result), history ++ [r])

/-- The first `k` passes from a zeroed Result. -/
def runPasses (flags : Flags) (configuration : Configuration) (ex : Executor) :
    Nat → Result × List DoResult
  | 0 => (Result.zero, [])
  | k + 1 => runPass flags configuration ex configuration.urls
      (runPasses flags configuration ex k)

/-! ## Sample inputs -/

/-- A stand-in for `url.Parse` on the sample URLs: `":"` is rejected (missing
protocol scheme), the `http://` URLs used here are accepted. -/
def sampleParses (tmpUrl : String) : Bool := tmpUrl != ":"

/-- An executor answering every attempt with the given status, body drained. -/
def alwaysStatus (code : Int) : Executor :=
  { parses := sampleParses, Do := fun _ _ _ => .response ⟨code, none⟩ }

/-- An executor failing every attempt at the transport. -/
def alwaysRefused : Executor :=
  { parses := sampleParses, Do := fun _ _ _ => .failed (.other "connection refused") }

/-- A configuration as `NewConfiguration` builds it for `-r limit`. -/
def sampleConfiguration (urls : List String) (limit : Int) : Configuration :=
  { urls := urls, method := "GET", postData := [], requests := limit, period := 0,
    keepAlive := true }

/-- A file system with one URL-list file `urls.txt` holding the given reads. -/
def sampleFiles (reads : List (String × Bool)) : FileSystem :=
  { openLines := fun path =>
      if path = "urls.txt" then .ok { reads := reads, final := .eof }
      else .error (.other "no such file"),
    readFile := fun _ => .error (.other "no such file") }

/-! ## Machine integers: lemmas -/

theorem wrap64_wrap64_add (a b : Int) : wrap64 (wrap64 a + b) = wrap64 (a + b) := by
  unfold wrap64; omega

theorem wrap64_add_wrap64 (a b : Int) : wrap64 (a + wrap64 b) = wrap64 (a + b) := by
  unfold wrap64; omega

theorem wrap64_idem (a : Int) : wrap64 (wrap64 a) = wrap64 a := by
  unfold wrap64; omega

theorem wrap64_of_isInt64 {x : Int} (h : isInt64 x) : wrap64 x = x := by
  unfold isInt64 minInt64 maxInt64 at h; unfold wrap64; omega

theorem isInt64_wrap64 (x : Int) : isInt64 (wrap64 x) := by
  unfold isInt64 minInt64 maxInt64 wrap64; omega

theorem wrap64_congr_add {y y' : Int} (x : Int) (h : wrap64 y = wrap64 y') :
    wrap64 (x + y) = wrap64 (x + y') := by
  unfold wrap64 at *; omega

/-! ## Instrumented connection: lemmas -/

theorem readCalls_readThroughput (calls : List (IoReturn × Int)) (this : MyConn)
    (hfix : wrap64 this.result.readThroughput = this.result.readThroughput) :
    (readCalls this calls).result.readThroughput
      = wrap64 (this.result.readThroughput + bytesReadOk calls) := by
  induction calls generalizing this with
  | nil => simp [readCalls, bytesReadOk, hfix]
  | cons c rest ih =>
    obtain ⟨under, now⟩ := c
    by_cases herr : under.err = none
    · have hstep : (this.Read under now).1.result.readThroughput
          = wrap64 (this.result.readThroughput + wrap64 under.n) := by
        simp [MyConn.Read, herr]
      rw [readCalls, ih _ (by rw [hstep, wrap64_idem]), hstep]
      simp only [bytesReadOk, List.filter_cons, herr, decide_True, if_true, List.map_cons,
        List.sum_cons]
      rw [wrap64_wrap64_add]
      generalize (List.map (fun c => c.1.n)
        (List.filter (fun c => decide (c.1.err = none)) rest)).sum = tail
      unfold wrap64; omega
    · have hstep : (this.Read under now).1 = this := by simp [MyConn.Read, herr]
      rw [readCalls, hstep, ih _ hfix]
      simp [bytesReadOk, List.filter_cons, herr]

/-! ## Aggregation: lemmas -/

theorem foldl_addResult (results : List Result) (t : Result)
    (h1 : wrap64 t.requests = t.requests) (h2 : wrap64 t.success = t.success)
    (h3 : wrap64 t.networkFailed = t.networkFailed) (h4 : wrap64 t.badFailed = t.badFailed)
    (h5 : wrap64 t.readThroughput = t.readThroughput)
    (h6 : wrap64 t.writeThroughput = t.writeThroughput) :
    results.foldl addResult t =
      { requests := wrap64 (t.requests + (results.map Result.requests).sum),
        success := wrap64 (t.success + (results.map Result.success).sum),
        networkFailed := wrap64 (t.networkFailed + (results.map Result.networkFailed).sum),
        badFailed := wrap64 (t.badFailed + (results.map Result.badFailed).sum),
        readThroughput := wrap64 (t.readThroughput + (results.map Result.readThroughput).sum),
        writeThroughput :=
          wrap64 (t.writeThroughput + (results.map Result.writeThroughput).sum) } := by
  induction results generalizing t with
  | nil => cases t; simp_all
  | cons r rest ih =>
    rw [List.foldl_cons, ih (addResult t r) (wrap64_idem _) (wrap64_idem _) (wrap64_idem _)
      (wrap64_idem _) (wrap64_idem _) (wrap64_idem _)]
    simp only [addResult, List.map_cons, List.sum_cons, wrap64_wrap64_add, add_assoc]

theorem sum_balanced (results : List Result) (h : ∀ r ∈ results, balanced r) :
    wrap64 (results.map Result.requests).sum
      = wrap64 ((results.map Result.success).sum + (results.map Result.networkFailed).sum
          + (results.map Result.badFailed).sum) := by
  induction results with
  | nil => simp
  | cons r rest ih =>
    have hr : balanced r := h r (List.mem_cons_self _ _)
    have hrest := ih (fun x hx => h x (List.mem_cons_of_mem _ hx))
    simp only [List.map_cons, List.sum_cons]
    unfold balanced at hr
    rw [hr]
    unfold wrap64 at *
    omega


/-! ## Instrumented connection: claims -/

/-- C5, as stated, fails: one `Read` that returns 5 bytes together with an
error leaves `readThroughput` at 0 although the calls returned 5 bytes. -/
theorem readThroughput_total_counterexample :
    ¬ ∀ (this : MyConn) (calls : List (IoReturn × Int)),
        this.result.readThroughput = 0 →
        (readCalls this calls).result.readThroughput = bytesReturned calls := by
  intro h
  have h5 := h ⟨⟨none, none⟩, 5000, 5000, Result.zero⟩ [(⟨5, some GoError.eof⟩, 0)] rfl
  revert h5
  decide

/-- C5, amended: after any sequence of `Read` calls on a connection whose
Result starts with `readThroughput == 0`, `readThroughput` is the int64 sum of
the byte counts of the calls that returned a nil error, and is exactly their
total `B` whenever `B` is an int64; reads that return an error add nothing. -/
theorem readThroughput_counts_successful_reads (this : MyConn)
    (calls : List (IoReturn × Int)) (h0 : this.result.readThroughput = 0) :
    (readCalls this calls).result.readThroughput = wrap64 (bytesReadOk calls) ∧
    (isInt64 (bytesReadOk calls) →
      (readCalls this calls).result.readThroughput = bytesReadOk calls) := by
  have h := readCalls_readThroughput calls this (by rw [h0]; rfl)
  rw [h0, zero_add] at h
  exact ⟨h, fun hB => by rw [h, wrap64_of_isInt64 hB]⟩

/-- Witness for C5 amended: reads of 3 and 4 bytes around a failed read that
returned 5 bytes give `readThroughput == 7`. -/
theorem readThroughput_counts_successful_reads_witness :
    (readCalls ⟨⟨none, none⟩, 5000, 5000, Result.zero⟩
        [(⟨3, none⟩, 10), (⟨5, some GoError.eof⟩, 20), (⟨4, none⟩, 30)]).result.readThroughput
      = 7 :=
  (readThroughput_counts_successful_reads ⟨⟨none, none⟩, 5000, 5000, Result.zero⟩
    [(⟨3, none⟩, 10), (⟨5, some GoError.eof⟩, 20), (⟨4, none⟩, 30)] rfl).2 (by decide)

/-- C6: when the underlying connection returns a non-nil error, `MyConn.Read`
and `MyConn.Write` leave the connection object as it was (every field of the
owning Result, both deadlines) and return exactly the underlying `(n, err)`. -/
theorem MyConn_error_passthrough (this : MyConn) (under : IoReturn) (now : Int)
    (herr : under.err ≠ none) :
    this.Read under now = (this, under) ∧ this.Write under now = (this, under) := by
  simp [MyConn.Read, MyConn.Write, herr]

/-- Witness for C6: a read and a write failing with 5 bytes moved. -/
theorem MyConn_error_passthrough_witness :
    MyConn.Read ⟨⟨some 7, some 9⟩, 5000, 5000, ⟨1, 1, 0, 0, 40, 50⟩⟩
        ⟨5, some (GoError.other "reset")⟩ 100
      = (⟨⟨some 7, some 9⟩, 5000, 5000, ⟨1, 1, 0, 0, 40, 50⟩⟩,
          ⟨5, some (GoError.other "reset")⟩) ∧
    MyConn.Write ⟨⟨some 7, some 9⟩, 5000, 5000, ⟨1, 1, 0, 0, 40, 50⟩⟩
        ⟨5, some (GoError.other "reset")⟩ 100
      = (⟨⟨some 7, some 9⟩, 5000, 5000, ⟨1, 1, 0, 0, 40, 50⟩⟩,
          ⟨5, some (GoError.other "reset")⟩) :=
  MyConn_error_passthrough _ _ 100 (by decide)

/-! ## Aggregation: claims -/

/-- C8: the totals of `printResults` are the field-wise int64 sums over the
per-worker Results, the same for every order in which the map is visited; and
if every Result satisfies `requests == success + networkFailed + badFailed`,
so do the totals. -/
theorem printResults_totals (results : List Result) :
    printResults results =
      { requests := wrap64 (results.map Result.requests).sum,
        success := wrap64 (results.map Result.success).sum,
        networkFailed := wrap64 (results.map Result.networkFailed).sum,
        badFailed := wrap64 (results.map Result.badFailed).sum,
        readThroughput := wrap64 (results.map Result.readThroughput).sum,
        writeThroughput := wrap64 (results.map Result.writeThroughput).sum } ∧
    (∀ results', results.Perm results' → printResults results' = printResults results) ∧
    ((∀ r ∈ results, balanced r) → balanced (printResults results)) := by
  have hsum : ∀ l : List Result, printResults l =
      { requests := wrap64 (l.map Result.requests).sum,
        success := wrap64 (l.map Result.success).sum,
        networkFailed := wrap64 (l.map Result.networkFailed).sum,
        badFailed := wrap64 (l.map Result.badFailed).sum,
        readThroughput := wrap64 (l.map Result.readThroughput).sum,
        writeThroughput := wrap64 (l.map Result.writeThroughput).sum } := by
    intro l
    unfold printResults
    rw [foldl_addResult l Result.zero rfl rfl rfl rfl rfl rfl]
    simp [Result.zero]
  refine ⟨hsum results, ?_, ?_⟩
  · intro results' hperm
    rw [hsum, hsum, (hperm.map Result.requests).sum_eq, (hperm.map Result.success).sum_eq,
      (hperm.map Result.networkFailed).sum_eq, (hperm.map Result.badFailed).sum_eq,
      (hperm.map Result.readThroughput).sum_eq, (hperm.map Result.writeThroughput).sum_eq]
  · intro hall
    rw [hsum]
    unfold balanced
    simp only
    rw [sum_balanced results hall]
    unfold wrap64
    omega

/-- Witness for C8: two balanced workers, visited in either order. -/
theorem printResults_totals_witness :
    printResults [⟨3, 1, 1, 1, 10, 20⟩, ⟨2, 2, 0, 0, 5, 6⟩] = ⟨5, 3, 1, 1, 15, 26⟩ ∧
    printResults [⟨2, 2, 0, 0, 5, 6⟩, ⟨3, 1, 1, 1, 10, 20⟩]
      = printResults [⟨3, 1, 1, 1, 10, 20⟩, ⟨2, 2, 0, 0, 5, 6⟩] ∧
    balanced (printResults [⟨3, 1, 1, 1, 10, 20⟩, ⟨2, 2, 0, 0, 5, 6⟩]) :=
  have h := printResults_totals [⟨3, 1, 1, 1, 10, 20⟩, ⟨2, 2, 0, 0, 5, 6⟩]
  ⟨h.1.trans (by decide), h.2.1 _ (List.Perm.swap _ _ _),
    h.2.2 (by intro r hr; simp at hr; rcases hr with rfl | rfl <;> decide)⟩

/-! ## Configuration: lemmas -/

theorem fileLines_ne_nil (reads : List (String × Bool)) (hne : reads ≠ []) :
    fileLines reads ≠ [] := by
  cases reads with
  | nil => exact absurd rfl hne
  | cons c rest =>
    obtain ⟨part, isPrefix⟩ := c
    cases isPrefix with
    | false => simp [fileLines]
    | true =>
      simp only [fileLines]
      split <;> simp

/-- The loop of `readLines` assembles the lines of the file, the pending buffer
going in front of the first of them, when the file does not end in the middle
of a long line. -/
theorem readLinesLoop_fileLines (reads : List (String × Bool)) (buffer : String)
    (lines : List String) (hwhole : endsWithWholeLine reads = true) :
    readLinesLoop reads buffer lines = lines ++
      (match fileLines reads with
        | [] => []
        | line :: more => (buffer ++ line) :: more) := by
  induction reads generalizing buffer lines with
  | nil => simp [readLinesLoop, fileLines]
  | cons c rest ih =>
    obtain ⟨part, isPrefix⟩ := c
    cases isPrefix with
    | false =>
      simp only [endsWithWholeLine] at hwhole
      simp only [readLinesLoop, fileLines, Bool.false_eq_true, if_false, ih _ _ hwhole]
      cases fileLines rest <;> simp
    | true =>
      simp only [endsWithWholeLine, Bool.and_eq_true, Bool.not_eq_true',
        List.isEmpty_eq_false] at hwhole
      have hne := fileLines_ne_nil rest hwhole.1
      simp only [readLinesLoop, fileLines, if_true, ih _ _ hwhole.2]
      cases hfl : fileLines rest with
      | nil => exact absurd hfl hne
      | cons line more => simp [String.append_assoc]

theorem readLines_fileLines {fs : FileSystem} {path : String} {file : LineFile}
    (hopen : fs.openLines path = .ok file) (hwhole : endsWithWholeLine file.reads = true) :
    (readLines fs path).1 = fileLines file.reads := by
  simp only [readLines, hopen, readLinesLoop_fileLines _ _ _ hwhole, List.nil_append]
  cases fileLines file.reads <;> simp

theorem initialConfiguration_urls (flags : Flags) : (initialConfiguration flags).urls = [] := by
  unfold initialConfiguration
  simp only
  split <;> split <;> rfl

theorem loadUrlsFile_urls {flags : Flags} {fs : FileSystem} {c c' : Configuration}
    (h : loadUrlsFile flags fs c = .ok c') :
    c'.urls = if flags.urlsFilePath ≠ "" then (readLines fs flags.urlsFilePath).1 else c.urls := by
  unfold loadUrlsFile at h
  split at h
  · rename_i hf
    rw [if_pos hf]
    split at h
    · rename_i fileLines heq
      cases h; simp [heq]
    · cases h
  · rename_i hf
    rw [if_neg hf]
    cases h; rfl

theorem appendUrl_urls (flags : Flags) (c : Configuration) :
    (appendUrl flags c).urls = c.urls ++ (if flags.url ≠ "" then [flags.url] else []) := by
  unfold appendUrl
  split <;> simp

theorem loadPostData_urls {flags : Flags} {fs : FileSystem} {c c' : Configuration}
    (h : loadPostData flags fs c = .ok c') : c'.urls = c.urls := by
  unfold loadPostData at h
  split at h
  · split at h
    · cases h; rfl
    · cases h
  · cases h; rfl

theorem NewConfiguration_ok_urls {flags : Flags} {fs : FileSystem} {started : Startup}
    (h : NewConfiguration flags fs = .ok started) :
    started.configuration.urls =
      (if flags.urlsFilePath ≠ "" then (readLines fs flags.urlsFilePath).1 else []) ++
      (if flags.url ≠ "" then [flags.url] else []) := by
  unfold NewConfiguration at h
  split at h
  · cases h
  split at h
  · cases h
  split at h
  · cases h
  split at h
  · cases h
  rename_i c3 h3
  split at h
  · cases h
  rename_i c5 h5
  cases h
  simp only
  rw [loadPostData_urls h5, appendUrl_urls, loadUrlsFile_urls h3, initialConfiguration_urls]

theorem loadUrlsFile_readable {flags : Flags} {fs : FileSystem} (c : Configuration)
    (hread : inputsReadable flags fs) : ∃ c', loadUrlsFile flags fs c = .ok c' := by
  unfold loadUrlsFile
  split
  · rename_i hf
    obtain ⟨file, hopen, hfinal⟩ := hread.1 hf
    simp [readLines, hopen, hfinal]
  · exact ⟨c, rfl⟩

theorem loadPostData_readable {flags : Flags} {fs : FileSystem} (c : Configuration)
    (hread : inputsReadable flags fs) : ∃ c', loadPostData flags fs c = .ok c' := by
  unfold loadPostData
  split
  · rename_i hf
    obtain ⟨data, hdata⟩ := hread.2 hf
    simp [hdata]
  · exact ⟨c, rfl⟩

/-! ## Configuration: claims -/

/-- C3: when the flags name a URL source and every named input file is
readable, `NewConfiguration` returns a configuration without exiting if
exactly one of `-r` and `-t` differs from its unset value -1 (and `main` then
reaches the dispatch of its `-c` workers), and exits with code 1, no worker
having been dispatched, if neither or both do. -/
theorem NewConfiguration_stop_condition (flags : Flags) (fs : FileSystem)
    (hsrc : flags.urlsFilePath ≠ "" ∨ flags.url ≠ "") (hread : inputsReadable flags fs) :
    (((flags.requests ≠ -1 ∧ flags.period = -1) ∨ (flags.requests = -1 ∧ flags.period ≠ -1)) →
      ∃ started, NewConfiguration flags fs = .ok started ∧
        (0 ≤ flags.clients →
          main flags fs = .ok (started, List.replicate flags.clients.toNat Result.zero)) ∧
        (flags.clients < 0 → main flags fs = .error 2)) ∧
    (((flags.requests = -1 ∧ flags.period = -1) ∨ (flags.requests ≠ -1 ∧ flags.period ≠ -1)) →
      NewConfiguration flags fs = .error 1 ∧ main flags fs = .error 1) := by
  have hsrc' : ¬ (flags.urlsFilePath = "" ∧ flags.url = "") := by
    rintro ⟨h1, h2⟩
    rcases hsrc with h | h
    · exact h h1
    · exact h h2
  constructor
  · intro hone
    have hnot1 : ¬ (flags.requests = -1 ∧ flags.period = -1) := by
      rintro ⟨h1, h2⟩
      rcases hone with ⟨h, _⟩ | ⟨_, h⟩
      · exact h h1
      · exact h h2
    have hnot2 : ¬ (flags.requests ≠ -1 ∧ flags.period ≠ -1) := by
      rintro ⟨h1, h2⟩
      rcases hone with ⟨_, h⟩ | ⟨h, _⟩
      · exact h2 h
      · exact h1 h
    obtain ⟨c3, h3⟩ := loadUrlsFile_readable (initialConfiguration flags) hread
    obtain ⟨c5, h5⟩ := loadPostData_readable (appendUrl flags c3) hread
    have hnew : NewConfiguration flags fs
        = .ok { configuration := c5, killAfter := periodTimer flags } := by
      unfold NewConfiguration
      rw [if_neg hsrc', if_neg hnot1, if_neg hnot2]
      simp only [h3, h5]
    refine ⟨_, hnew, ?_, ?_⟩
    · intro hc
      simp only [main, hnew, if_neg (not_lt.mpr hc)]
    · intro hc
      simp only [main, hnew, if_pos hc]
  · intro hbad
    have hnew : NewConfiguration flags fs = .error 1 := by
      unfold NewConfiguration
      rw [if_neg hsrc']
      rcases hbad with h | h
      · rw [if_pos h]
      · by_cases h1 : flags.requests = -1 ∧ flags.period = -1
        · rw [if_pos h1]
        · rw [if_neg h1, if_pos h]
    exact ⟨hnew, by simp only [main, hnew]⟩

/-- Witness for C3: `-u http://a/ -r 10` starts 100 workers; the same with
`-t 5` added exits with code 1. -/
theorem NewConfiguration_stop_condition_witness :
    (∃ started,
      NewConfiguration { Flags.defaults with url := "http://a/", requests := 10 }
        (sampleFiles []) = .ok started ∧
      main { Flags.defaults with url := "http://a/", requests := 10 } (sampleFiles [])
        = .ok (started, List.replicate 100 Result.zero)) ∧
    (NewConfiguration { Flags.defaults with url := "http://a/", requests := 10, period := 5 }
        (sampleFiles []) = .error 1 ∧
      main { Flags.defaults with url := "http://a/", requests := 10, period := 5 }
        (sampleFiles []) = .error 1) :=
  ⟨((NewConfiguration_stop_condition
      { Flags.defaults with url := "http://a/", requests := 10 } (sampleFiles [])
      (Or.inr (by decide)) ⟨fun h => absurd rfl h, fun h => absurd rfl h⟩).1
      (Or.inl ⟨by decide, rfl⟩)).elim fun started h => ⟨started, h.1, h.2.1 (by decide)⟩,
    (NewConfiguration_stop_condition
      { Flags.defaults with url := "http://a/", requests := 10, period := 5 } (sampleFiles [])
      (Or.inr (by decide)) ⟨fun h => absurd rfl h, fun h => absurd rfl h⟩).2
      (Or.inr ⟨by decide, by decide⟩)⟩

/-- C7, as stated, fails: `-f urls.txt -r 10` with an empty `urls.txt` passes
validation and yields a configuration whose URL sequence is empty. -/
theorem NewConfiguration_urls_nonempty_counterexample :
    ¬ ∀ (flags : Flags) (fs : FileSystem) (started : Startup),
        (flags.urlsFilePath ≠ "" ∨ flags.url ≠ "") →
        ((flags.requests ≠ -1 ∧ flags.period = -1) ∨
          (flags.requests = -1 ∧ flags.period ≠ -1)) →
        NewConfiguration flags fs = .ok started →
        started.configuration.urls ≠ [] := by
  intro h
  exact h { Flags.defaults with urlsFilePath := "urls.txt", requests := 10 } (sampleFiles [])
    ⟨sampleConfiguration [] 10, none⟩ (Or.inl (by decide)) (Or.inl ⟨by decide, rfl⟩) rfl rfl

/-- C7, amended: whenever `NewConfiguration` returns, the URL sequence is
ordered: without `-f` it is the single `-u` URL; with `-f`, for every content
of the file that does not end in the middle of a line longer than the reader's
buffer, it is the lines of the URL-list file in file order followed by the
`-u` URL (when given), and it is non-empty exactly when `-u` is given or the
file has at least one line. -/
theorem NewConfiguration_urls (flags : Flags) (fs : FileSystem) (started : Startup)
    (h : NewConfiguration flags fs = .ok started) :
    (flags.urlsFilePath = "" → started.configuration.urls = [flags.url]) ∧
    (∀ file, flags.urlsFilePath ≠ "" → fs.openLines flags.urlsFilePath = .ok file →
      endsWithWholeLine file.reads = true →
      started.configuration.urls
        = fileLines file.reads ++ (if flags.url ≠ "" then [flags.url] else []) ∧
      (started.configuration.urls ≠ [] ↔ (flags.url ≠ "" ∨ fileLines file.reads ≠ []))) := by
  have hurls := NewConfiguration_ok_urls h
  constructor
  · intro hf
    have hu : flags.url ≠ "" := by
      intro hu
      unfold NewConfiguration at h
      rw [if_pos ⟨hf, hu⟩] at h
      cases h
    rw [hurls]
    simp [hf, hu]
  · intro file hf hopen hwhole
    rw [hurls, if_pos hf, readLines_fileLines hopen hwhole]
    refine ⟨rfl, ?_⟩
    by_cases hu : flags.url = "" <;> simp [hu]

/-- Witness for C7 amended: `-f urls.txt -u http://c/` with a file of two
lines, the first of which the reader delivers in two fragments. -/
theorem NewConfiguration_urls_witness :
    (sampleConfiguration ["http://a/x", "http://b/", "http://c/"] 10).urls
      = fileLines [("http://a", true), ("/x", false), ("http://b/", false)]
        ++ (if "http://c/" ≠ "" then ["http://c/"] else []) :=
  ((NewConfiguration_urls
    { Flags.defaults with urlsFilePath := "urls.txt", url := "http://c/", requests := 10 }
    (sampleFiles [("http://a", true), ("/x", false), ("http://b/", false)])
    ⟨sampleConfiguration ["http://a/x", "http://b/", "http://c/"] 10, none⟩ rfl).2
    ⟨[("http://a", true), ("/x", false), ("http://b/", false)], GoError.eof⟩
    (by decide) rfl rfl).1

/-! ## The worker: running the step machine -/

section Machine

variable (flags : Flags) (configuration : Configuration) (ex : Executor)

theorem stepsN_add (a b : Nat) (s : State) :
    stepsN flags configuration ex (a + b) s
      = (stepsN flags configuration ex a s).bind (stepsN flags configuration ex b) := by
  induction a generalizing s with
  | zero => simp [stepsN]
  | succ a ih =>
    rw [Nat.succ_add, stepsN, stepsN]
    cases step flags configuration ex s with
    | none => rfl
    | some s' => exact ih s'

theorem stepsN_succ_last (k : Nat) (s : State) :
    stepsN flags configuration ex (k + 1) s
      = (stepsN flags configuration ex k s).bind (step flags configuration ex) := by
  rw [stepsN_add]
  congr 1
  funext x
  simp only [stepsN]
  cases step flags configuration ex x <;> rfl

theorem stepsN_one (s : State) :
    stepsN flags configuration ex 1 s = step flags configuration ex s := by
  simp only [stepsN]
  cases step flags configuration ex s <;> rfl

theorem step_top_lt (result : Result) (history : List DoResult) (passes : Nat)
    (hlt : result.requests < configuration.requests) :
    step flags configuration ex
        { pc := .top, result := result, history := history, passes := passes }
      = some { pc := .pass configuration.urls, result := result, history := history,
               passes := passes } := by
  simp only [step, hlt, if_true]

theorem step_top_ge (result : Result) (history : List DoResult) (passes : Nat)
    (hge : ¬ result.requests < configuration.requests) :
    step flags configuration ex
        { pc := .top, result := result, history := history, passes := passes }
      = some { pc := .done, result := result, history := history, passes := passes } := by
  simp only [step, hge, if_false]

theorem Reachable.init (r0 : Result) : Reachable flags configuration ex r0 (State.init r0) :=
  ⟨0, rfl⟩

theorem Reachable.next {r0 : Result} {s s' : State}
    (hs : Reachable flags configuration ex r0 s)
    (hstep : step flags configuration ex s = some s') :
    Reachable flags configuration ex r0 s' := by
  obtain ⟨k, hk⟩ := hs
  exact ⟨k + 1, by rw [stepsN_succ_last, hk]; exact hstep⟩

/-- Induction over the run: what holds initially and is kept by every step
holds in every reachable state. -/
theorem Reachable.induction {r0 : Result} (P : State → Prop) (h0 : P (State.init r0))
    (hstep : ∀ s s', P s → step flags configuration ex s = some s' → P s')
    {s : State} (hs : Reachable flags configuration ex r0 s) : P s := by
  obtain ⟨k, hk⟩ := hs
  induction k generalizing s with
  | zero =>
    simp only [stepsN, Option.some.injEq] at hk
    exact hk ▸ h0
  | succ k ih =>
    rw [stepsN_succ_last] at hk
    cases hprev : stepsN flags configuration ex k (State.init r0) with
    | none => rw [hprev] at hk; cases hk
    | some t =>
      rw [hprev] at hk
      exact hstep t s (ih hprev) hk

theorem stepsN_done (k : Nat) {s : State} (hdone : s.pc = Pc.done) :
    stepsN flags configuration ex (k + 1) s = none := by
  simp [stepsN, step, hdone]

/-- A run that has stopped within `n` steps has no state beyond them. -/
theorem reachable_of_stopped {r0 : Result} {n : Nat}
    (hstop : stepsN flags configuration ex n (State.init r0) = none) {s : State}
    (hs : Reachable flags configuration ex r0 s) :
    ∃ k, k < n ∧ stepsN flags configuration ex k (State.init r0) = some s := by
  obtain ⟨k, hk⟩ := hs
  refine ⟨k, ?_, hk⟩
  by_contra hge
  obtain ⟨c, rfl⟩ := Nat.exists_eq_add_of_le (not_lt.mp hge)
  rw [stepsN_add, hstop] at hk
  cases hk

/-- The machine is deterministic and `done` has no successor: a run has at
most one final state. -/
theorem final_unique {s x y : State} {a b : Nat}
    (hx : stepsN flags configuration ex a s = some x) (hxd : x.pc = Pc.done)
    (hy : stepsN flags configuration ex b s = some y) (hyd : y.pc = Pc.done) : x = y := by
  rcases Nat.le_total a b with hab | hab
  · obtain ⟨c, rfl⟩ := Nat.exists_eq_add_of_le hab
    rw [stepsN_add, hx] at hy
    cases c with
    | zero => simpa [stepsN] using hy
    | succ c =>
      simp only [Option.bind] at hy
      rw [stepsN_done flags configuration ex c hxd] at hy
      cases hy
  · obtain ⟨c, rfl⟩ := Nat.exists_eq_add_of_le hab
    rw [stepsN_add, hy] at hx
    cases c with
    | zero => simpa [stepsN] using hx.symm
    | succ c =>
      simp only [Option.bind] at hx
      rw [stepsN_done flags configuration ex c hyd] at hx
      cases hx

/-- A whole pass over the remaining URLs, as steps of the machine. -/
theorem stepsN_pass (rest : List String) (result : Result) (history : List DoResult)
    (passes : Nat) (hparse : ∀ tmpUrl ∈ rest, ex.parses tmpUrl = true) :
    stepsN flags configuration ex (3 * rest.length + 1)
        { pc := .pass rest, result := result, history := history, passes := passes }
      = some { pc := .top,
               result := (runPass flags configuration ex rest (result, history)).1,
               history := (runPass flags configuration ex rest (result, history)).2,
               passes := passes + 1 } := by
  induction rest generalizing result history with
  | nil => rfl
  | cons tmpUrl rest ih =>
    have h3 : 3 * (tmpUrl :: rest).length + 1 = 3 + (3 * rest.length + 1) := by
      simp only [List.length_cons]; ring
    rw [h3, stepsN_add]
    simp only [stepsN, step, newRequest, hparse tmpUrl (List.mem_cons_self _ _), if_true,
      Option.bind, runPass]
    exact ih _ _ (fun u hu => hparse u (List.mem_cons_of_mem _ hu))

theorem runPass_history_length (rest : List String) (x : Result × List DoResult) :
    (runPass flags configuration ex rest x).2.length = x.2.length + rest.length := by
  induction rest generalizing x with
  | nil => simp [runPass]
  | cons tmpUrl rest ih =>
    obtain ⟨result, history⟩ := x
    simp only [runPass, ih, List.length_append, List.length_cons, List.length_nil]
    omega

theorem classify_requests (r : DoResult) (result : Result) :
    (classify r result).requests = result.requests := by
  unfold classify
  split
  · rfl
  · split
    · rfl
    · split <;> rfl

theorem runPass_requests (rest : List String) (x : Result × List DoResult)
    (hfix : wrap64 x.1.requests = x.1.requests) :
    (runPass flags configuration ex rest x).1.requests
      = wrap64 (x.1.requests + rest.length) := by
  induction rest generalizing x with
  | nil => simpa [runPass] using hfix.symm
  | cons tmpUrl rest ih =>
    obtain ⟨result, history⟩ := x
    simp only [runPass]
    rw [ih _ (by simp only [classify_requests, countRequest, wrap64_idem])]
    simp only [classify_requests, countRequest, List.length_cons, Nat.cast_add, Nat.cast_one]
    rw [wrap64_wrap64_add]
    congr 1; ring

theorem runPasses_history_length (k : Nat) :
    (runPasses flags configuration ex k).2.length = k * configuration.urls.length := by
  induction k with
  | zero => simp [runPasses]
  | succ k ih => rw [runPasses, runPass_history_length, ih]; ring

theorem runPasses_requests (k : Nat) :
    (runPasses flags configuration ex k).1.requests
      = wrap64 ((k * configuration.urls.length : Nat) : Int) := by
  induction k with
  | zero => simp [runPasses, Result.zero, wrap64]
  | succ k ih =>
    rw [runPasses, runPass_requests _ _ _ _ _ (by rw [ih, wrap64_idem]), ih, wrap64_wrap64_add]
    congr 1
    push_cast; ring

/-- The first `k` passes as steps of the machine, provided every URL parses
and the limit is not reached at the top of any of them. -/
theorem stepsN_passes (k : Nat)
    (hparse : ∀ tmpUrl ∈ configuration.urls, ex.parses tmpUrl = true)
    (hlt : ∀ j, j < k →
      (runPasses flags configuration ex j).1.requests < configuration.requests) :
    stepsN flags configuration ex (k * (3 * configuration.urls.length + 2))
        (State.init Result.zero)
      = some { pc := .top, result := (runPasses flags configuration ex k).1,
               history := (runPasses flags configuration ex k).2, passes := k } := by
  induction k with
  | zero => simp [stepsN, State.init, runPasses]
  | succ k ih =>
    have hk : (k + 1) * (3 * configuration.urls.length + 2)
        = k * (3 * configuration.urls.length + 2)
          + (1 + (3 * configuration.urls.length + 1)) := by ring
    rw [hk, stepsN_add, ih (fun j hj => hlt j (Nat.lt_succ_of_lt hj))]
    simp only [Option.bind]
    rw [stepsN_add, stepsN_one, step_top_lt flags configuration ex _ _ _
      (hlt k (Nat.lt_succ_self k))]
    simp only [Option.bind]
    rw [stepsN_pass flags configuration ex _ _ _ _ hparse]
    rfl

/-- The loop ends after `k` passes when the limit is first reached then. -/
theorem stepsN_terminal (k : Nat)
    (hparse : ∀ tmpUrl ∈ configuration.urls, ex.parses tmpUrl = true)
    (hlt : ∀ j, j < k →
      (runPasses flags configuration ex j).1.requests < configuration.requests)
    (hge : ¬ (runPasses flags configuration ex k).1.requests < configuration.requests) :
    stepsN flags configuration ex (k * (3 * configuration.urls.length + 2) + 1)
        (State.init Result.zero)
      = some { pc := .done, result := (runPasses flags configuration ex k).1,
               history := (runPasses flags configuration ex k).2, passes := k } := by
  rw [stepsN_add, stepsN_passes flags configuration ex k hparse hlt]
  simp only [Option.bind]
  rw [stepsN_one, step_top_ge flags configuration ex _ _ _ hge]

end Machine

/-! ## The worker: invariants -/

section Invariants

variable (flags : Flags) (configuration : Configuration) (ex : Executor)

theorem countP_partition (history : List DoResult) :
    history.countP isSuccess + history.countP isNetworkFailure + history.countP isBad
      = history.length := by
  induction history with
  | nil => rfl
  | cons r rest ih =>
    have hr : (isSuccess r = true ∧ isNetworkFailure r = false ∧ isBad r = false) ∨
        (isSuccess r = false ∧ isNetworkFailure r = true ∧ isBad r = false) ∨
        (isSuccess r = false ∧ isNetworkFailure r = false ∧ isBad r = true) := by
      rcases r with e | ⟨code, _ | e⟩
      · simp [isSuccess, isNetworkFailure, isBad]
      · by_cases hc : code = 200 <;> simp [isSuccess, isNetworkFailure, isBad, hc]
      · simp [isSuccess, isNetworkFailure, isBad]
    simp only [List.countP_cons, List.length_cons]
    rcases hr with ⟨h1, h2, h3⟩ | ⟨h1, h2, h3⟩ | ⟨h1, h2, h3⟩ <;> simp [h1, h2, h3] <;> omega

theorem tallied_step {s s' : State} (hs : Tallied s)
    (hstep : step flags configuration ex s = some s') : Tallied s' := by
  obtain ⟨pc, result, history, passes⟩ := s
  obtain ⟨h1, h2, h3, h4⟩ := hs
  simp only at h1 h2 h3 h4
  cases pc with
  | top =>
    simp only [step] at hstep
    split at hstep <;> (cases hstep; exact ⟨h1, h2, h3, h4⟩)
  | pass rest =>
    cases rest with
    | nil => simp only [step] at hstep; cases hstep; exact ⟨h1, h2, h3, h4⟩
    | cons u rest =>
      simp only [step] at hstep
      split at hstep <;> (cases hstep; exact ⟨h1, h2, h3, h4⟩)
  | called rest r =>
    simp only [step] at hstep
    cases hstep
    refine ⟨h1, h2, h3, ?_⟩
    simp only [countRequest, Pc.pending] at h4 ⊢
    rw [h4, wrap64_wrap64_add, add_zero]
  | done => simp only [step] at hstep; cases hstep
  | faulted => simp only [step] at hstep; cases hstep
  | counted rest r =>
    simp only [step] at hstep
    cases hstep
    simp only [Tallied, Pc.pending, List.countP_append, List.countP_cons, List.countP_nil,
      List.length_append, List.length_cons, List.length_nil, classify_requests] at h4 ⊢
    rcases r with e | ⟨code, _ | e⟩
    · simp only [classify, isSuccess, isNetworkFailure, isBad, h1, h2, h3, h4]
      refine ⟨by simp, ?_, by simp, by simp⟩
      rw [wrap64_wrap64_add]; simp
    · by_cases hc : code = 200
      · simp only [classify, isSuccess, isNetworkFailure, isBad, hc, h1, h2, h3, h4]
        refine ⟨?_, by simp, by simp, by simp⟩
        rw [wrap64_wrap64_add]; simp
      · simp only [classify, isSuccess, isNetworkFailure, isBad, hc, h1, h2, h3, h4]
        refine ⟨by simp [hc], by simp, ?_, by simp⟩
        simp only [wrap64_wrap64_add]; simp [hc]
    · simp only [classify, isSuccess, isNetworkFailure, isBad, h1, h2, h3, h4]
      refine ⟨by simp, ?_, by simp, by simp⟩
      rw [wrap64_wrap64_add]; simp

/-- From a zeroed Result the counters always agree with the history. -/
theorem reachable_tallied {s : State}
    (hs : Reachable flags configuration ex Result.zero s) : Tallied s := by
  refine Reachable.induction flags configuration ex Tallied ?_
    (fun s s' h hstep => tallied_step flags configuration ex h hstep) hs
  simp [Tallied, State.init, Result.zero, Pc.pending, wrap64]

end Invariants

section Runs

variable (flags : Flags) (configuration : Configuration) (ex : Executor)

/-- Whatever holds of every answer of the executor holds of every entry of the
history and of the answer in hand. -/
theorem reachable_answers (Q : DoResult → Prop) (hQ : ∀ c i q, Q (ex.Do c i q)) {r0 : Result}
    {s : State} (hs : Reachable flags configuration ex r0 s) :
    (∀ r ∈ s.history, Q r) ∧
    (∀ rest r, s.pc = .called rest r ∨ s.pc = .counted rest r → Q r) := by
  refine Reachable.induction flags configuration ex
    (fun s => (∀ r ∈ s.history, Q r) ∧
      (∀ rest r, s.pc = .called rest r ∨ s.pc = .counted rest r → Q r)) ?_ ?_ hs
  · exact ⟨by simp [State.init], by simp [State.init]⟩
  · rintro ⟨pc, result, history, passes⟩ s' ⟨hh, hp⟩ hstep
    simp only at hh hp
    cases pc with
    | top =>
      simp only [step] at hstep
      split at hstep <;> (cases hstep; exact ⟨hh, by simp⟩)
    | pass rest =>
      cases rest with
      | nil => simp only [step] at hstep; cases hstep; exact ⟨hh, by simp⟩
      | cons u rest =>
        simp only [step] at hstep
        split at hstep
        · cases hstep; exact ⟨hh, by simp⟩
        · cases hstep
          refine ⟨hh, ?_⟩
          intro rest' r hr
          simp only [Pc.called.injEq, false_or, or_false, reduceCtorEq] at hr
          rw [← hr.2]
          exact hQ _ _ _
    | called rest r =>
      simp only [step] at hstep; cases hstep
      refine ⟨hh, ?_⟩
      intro rest' r' hr
      simp only [Pc.counted.injEq, false_or, reduceCtorEq] at hr
      rw [← hr.2]
      exact hp rest r (Or.inl rfl)
    | counted rest r =>
      simp only [step] at hstep; cases hstep
      refine ⟨?_, by simp⟩
      intro r' hr'
      simp only [List.mem_append, List.mem_singleton] at hr'
      rcases hr' with h | h
      · exact hh r' h
      · rw [h]; exact hp rest r (Or.inr rfl)
    | done => simp only [step] at hstep; cases hstep
    | faulted => simp only [step] at hstep; cases hstep

theorem classify_throughput (r : DoResult) (result : Result) :
    (classify r result).readThroughput = result.readThroughput ∧
    (classify r result).writeThroughput = result.writeThroughput := by
  unfold classify
  split
  · exact ⟨rfl, rfl⟩
  · split
    · exact ⟨rfl, rfl⟩
    · split <;> exact ⟨rfl, rfl⟩

/-- No step writes a throughput counter. -/
theorem reachable_throughput {r0 : Result} {s : State}
    (hs : Reachable flags configuration ex r0 s) :
    s.result.readThroughput = r0.readThroughput ∧
    s.result.writeThroughput = r0.writeThroughput := by
  refine Reachable.induction flags configuration ex
    (fun s => s.result.readThroughput = r0.readThroughput ∧
      s.result.writeThroughput = r0.writeThroughput) ⟨rfl, rfl⟩ ?_ hs
  rintro ⟨pc, result, history, passes⟩ s' hp hstep
  simp only at hp
  cases pc with
  | top => simp only [step] at hstep; split at hstep <;> (cases hstep; exact hp)
  | pass rest =>
    cases rest with
    | nil => simp only [step] at hstep; cases hstep; exact hp
    | cons u rest => simp only [step] at hstep; split at hstep <;> (cases hstep; exact hp)
  | called rest r => simp only [step] at hstep; cases hstep; exact hp
  | counted rest r =>
    simp only [step] at hstep; cases hstep
    exact ⟨(classify_throughput r result).1.trans hp.1,
      (classify_throughput r result).2.trans hp.2⟩
  | done => simp only [step] at hstep; cases hstep
  | faulted => simp only [step] at hstep; cases hstep

/-- With two URLs and the limit `(1 << 63) - 1` the count at the top of the loop is
always even, hence below the limit: the loop is never left. -/
theorem two_urls_never_done (hU : configuration.urls.length = 2)
    (hR : configuration.requests = maxInt64) {s : State}
    (hs : Reachable flags configuration ex Result.zero s) : s.pc ≠ Pc.done := by
  have hinv : isInt64 s.result.requests ∧
      (match s.pc with
        | .top => s.result.requests % 2 = 0
        | .pass rest => (s.result.requests + rest.length) % 2 = 0
        | .called rest _ => (s.result.requests + 1 + rest.length) % 2 = 0
        | .counted rest _ => (s.result.requests + rest.length) % 2 = 0
        | .done => False
        | .faulted => True) := by
    refine Reachable.induction flags configuration ex
      (fun s => isInt64 s.result.requests ∧
        (match s.pc with
          | .top => s.result.requests % 2 = 0
          | .pass rest => (s.result.requests + rest.length) % 2 = 0
          | .called rest _ => (s.result.requests + 1 + rest.length) % 2 = 0
          | .counted rest _ => (s.result.requests + rest.length) % 2 = 0
          | .done => False
          | .faulted => True)) ?_ ?_ hs
    · exact ⟨by decide, by simp [State.init, Result.zero]⟩
    · rintro ⟨pc, result, history, passes⟩ s' ⟨hrange, hp⟩ hstep
      simp only at hrange hp
      cases pc with
      | top =>
        simp only at hp
        have hlt : result.requests < configuration.requests := by
          rw [hR]; unfold isInt64 minInt64 maxInt64 at hrange; unfold maxInt64; omega
        simp only [step, hlt, if_true] at hstep
        cases hstep
        refine ⟨hrange, ?_⟩
        simp only [hU]
        omega
      | pass rest =>
        cases rest with
        | nil =>
          simp only [step] at hstep; cases hstep
          exact ⟨hrange, by simpa using hp⟩
        | cons u rest =>
          simp only [step] at hstep
          split at hstep
          · cases hstep; exact ⟨hrange, trivial⟩
          · cases hstep
            refine ⟨hrange, ?_⟩
            simp only [List.length_cons, Nat.cast_add, Nat.cast_one] at hp ⊢
            omega
      | called rest r =>
        simp only [step] at hstep; cases hstep
        refine ⟨isInt64_wrap64 _, ?_⟩
        simp only [countRequest, wrap64] at hp ⊢
        omega
      | counted rest r =>
        simp only [step] at hstep; cases hstep
        simp only [classify_requests]
        exact ⟨hrange, hp⟩
      | done => simp only [step] at hstep; cases hstep
      | faulted => simp only [step] at hstep; cases hstep
  intro hdone
  rw [hdone] at hinv
  exact hinv.2

/-- With no URL and a positive limit the loop spins at zero requests. -/
theorem no_urls_spins (hU : configuration.urls = []) (hR : 0 < configuration.requests)
    {s : State} (hs : Reachable flags configuration ex Result.zero s) :
    (s.pc = Pc.top ∨ s.pc = Pc.pass []) ∧ s.result = Result.zero ∧ s.history = [] := by
  refine Reachable.induction flags configuration ex
    (fun s => (s.pc = Pc.top ∨ s.pc = Pc.pass []) ∧ s.result = Result.zero ∧ s.history = [])
    ?_ ?_ hs
  · exact ⟨Or.inl rfl, rfl, rfl⟩
  · rintro ⟨pc, result, history, passes⟩ s' ⟨hp, hres, hhist⟩ hstep
    simp only at hp hres hhist
    subst hres hhist
    rcases hp with rfl | rfl
    · have hlt : Result.zero.requests < configuration.requests := hR
      simp only [step, hlt, if_true, hU] at hstep
      cases hstep
      exact ⟨Or.inr rfl, rfl, rfl⟩
    · simp only [step] at hstep
      cases hstep
      exact ⟨Or.inl rfl, rfl, rfl⟩

theorem passesNeeded_spec (R : Int) (U : Nat) (hU : 1 ≤ U) (hR : 0 ≤ R) :
    R ≤ ((passesNeeded R U * U : Nat) : Int) ∧
    ((passesNeeded R U * U : Nat) : Int) ≤ R + (U - 1) ∧
    ∀ j, j < passesNeeded R U → ((j * U : Nat) : Int) < R := by
  obtain ⟨n, rfl⟩ := Int.eq_ofNat_of_zero_le hR
  simp only [passesNeeded, Int.toNat_ofNat]
  have hdm := Nat.div_add_mod (n + U - 1) U
  have hmod := Nat.mod_lt (n + U - 1) (show U > 0 by omega)
  have hcomm : U * ((n + U - 1) / U) = (n + U - 1) / U * U := Nat.mul_comm _ _
  refine ⟨?_, ?_, ?_⟩
  · have : n ≤ (n + U - 1) / U * U := by omega
    exact_mod_cast this
  · have : (n + U - 1) / U * U ≤ n + (U - 1) := by omega
    have h2 : (((n + U - 1) / U * U : Nat) : Int) ≤ ((n + (U - 1) : Nat) : Int) := by
      exact_mod_cast this
    rw [Nat.cast_add, Nat.cast_sub hU] at h2
    simpa using h2
  · intro j hj
    have h1 : (j + 1) * U ≤ (n + U - 1) / U * U := Nat.mul_le_mul_right U hj
    have h2 : (j + 1) * U = j * U + U := by ring
    have : j * U < n := by omega
    exact_mod_cast this

/-- The run with a limit `R >= 0` over `U >= 1` URLs that all parse, when the first multiple of
`U` that reaches `R` is an int64: the loop is left after exactly `passesNeeded`
passes with that multiple as the number of requests. -/
theorem client_run (hparse : ∀ tmpUrl ∈ configuration.urls, ex.parses tmpUrl = true)
    (hU : 1 ≤ configuration.urls.length) (hR : 0 ≤ configuration.requests)
    (hfit : ((passesNeeded configuration.requests configuration.urls.length
      * configuration.urls.length : Nat) : Int) ≤ maxInt64) :
    ∃ s, Reachable flags configuration ex Result.zero s ∧ s.pc = Pc.done ∧
      s.passes = passesNeeded configuration.requests configuration.urls.length ∧
      s.history.length = s.passes * configuration.urls.length ∧
      s.result.requests = ((s.passes * configuration.urls.length : Nat) : Int) := by
  obtain ⟨hge, _, hlt⟩ := passesNeeded_spec configuration.requests configuration.urls.length hU hR
  have hval : ∀ j, j ≤ passesNeeded configuration.requests configuration.urls.length →
      (runPasses flags configuration ex j).1.requests
        = ((j * configuration.urls.length : Nat) : Int) := by
    intro j hj
    rw [runPasses_requests]
    apply wrap64_of_isInt64
    have h1 : j * configuration.urls.length
        ≤ passesNeeded configuration.requests configuration.urls.length
          * configuration.urls.length := Nat.mul_le_mul_right _ hj
    have h2 : ((j * configuration.urls.length : Nat) : Int)
        ≤ ((passesNeeded configuration.requests configuration.urls.length
          * configuration.urls.length : Nat) : Int) := by exact_mod_cast h1
    have h3 : (0 : Int) ≤ ((j * configuration.urls.length : Nat) : Int) := Int.ofNat_nonneg _
    unfold isInt64 minInt64
    constructor
    · omega
    · omega
  have hterm := stepsN_terminal flags configuration ex
    (passesNeeded configuration.requests configuration.urls.length) hparse
    (fun j hj => by rw [hval j (Nat.le_of_lt hj)]; exact hlt j hj)
    (by rw [hval _ (Nat.le_refl _)]; omega)
  exact ⟨_, ⟨_, hterm⟩, rfl, rfl, runPasses_history_length flags configuration ex _,
    hval _ (Nat.le_refl _)⟩

/-- The loop is left after `k` passes when the int64 count `k * U` is the first
of the counts at the top of the loop to reach the limit. -/
theorem run_ends_after (k : Nat)
    (hparse : ∀ tmpUrl ∈ configuration.urls, ex.parses tmpUrl = true)
    (hlt : ∀ j, j < k →
      wrap64 ((j * configuration.urls.length : Nat) : Int) < configuration.requests)
    (hge : ¬ wrap64 ((k * configuration.urls.length : Nat) : Int) < configuration.requests) :
    ∃ s, Reachable flags configuration ex Result.zero s ∧ s.pc = Pc.done ∧ s.passes = k ∧
      s.history.length = k * configuration.urls.length ∧
      s.result.requests = wrap64 ((k * configuration.urls.length : Nat) : Int) := by
  have hterm := stepsN_terminal flags configuration ex k hparse
    (fun j hj => by rw [runPasses_requests]; exact hlt j hj)
    (by rw [runPasses_requests]; exact hge)
  exact ⟨_, ⟨_, hterm⟩, rfl, rfl, runPasses_history_length flags configuration ex k,
    runPasses_requests flags configuration ex k⟩

/-- Three at a time, the count first reaches `(1 << 63) - 1` after wrapping
around twice. -/
theorem wrap64_three_mul_lt (j : Nat) (hj : j < 15372286728091293013) :
    wrap64 ((j * 3 : Nat) : Int) < 9223372036854775807 := by
  unfold wrap64
  push_cast
  have hmod := Int.emod_def ((j : Int) * 3 + 9223372036854775808) 18446744073709551616
  have hlt := Int.emod_lt_of_pos ((j : Int) * 3 + 9223372036854775808)
    (show (0 : Int) < 18446744073709551616 by norm_num)
  generalize ((j : Int) * 3 + 9223372036854775808) / 18446744073709551616 = q at hmod
  generalize ((j : Int) * 3 + 9223372036854775808) % 18446744073709551616 = m at hmod hlt ⊢
  have hjz : (j : Int) < 15372286728091293013 := by exact_mod_cast hj
  have hj0 : (0 : Int) ≤ (j : Int) := Int.ofNat_nonneg _
  generalize (j : Int) = i at hmod hjz hj0
  by_contra hcon
  have hm : m = 18446744073709551615 := by linarith
  subst hm
  have hq0 : 0 ≤ q := by
    by_contra hneg
    have : q ≤ -1 := by linarith
    linarith
  have hq2 : q ≤ 1 := by
    by_contra hneg
    have : 2 ≤ q := by linarith
    linarith
  have hcases : q = 0 ∨ q = 1 := by
    rcases lt_or_eq_of_le hq2 with h | h
    · left; linarith
    · right; exact h
  rcases hcases with rfl | rfl
  · have h3 : i * 3 = 9223372036854775807 := by linarith
    clear hmod hlt hcon hq0 hq2 hjz hj0
    omega
  · have h3 : i * 3 = 27670116110564327423 := by linarith
    clear hmod hlt hcon hq0 hq2 hjz hj0
    omega

/-- Any two final states of a run are the same state. -/
theorem reachable_final_unique {r0 : Result} {s s' : State}
    (hs : Reachable flags configuration ex r0 s) (hd : s.pc = Pc.done)
    (hs' : Reachable flags configuration ex r0 s') (hd' : s'.pc = Pc.done) : s' = s := by
  obtain ⟨a, ha⟩ := hs
  obtain ⟨b, hb⟩ := hs'
  exact final_unique flags configuration ex hb hd' ha hd

end Runs

section Trace

variable (flags : Flags) (configuration : Configuration) (ex : Executor)

theorem traced_append {history : List DoResult} {r : DoResult} {tmpUrl : String}
    {req : Request} (hold : Traced flags configuration ex history)
    (hurl : configuration.urls[history.length % configuration.urls.length]? = some tmpUrl)
    (hreq : newRequest ex configuration tmpUrl = some req)
    (hr : r = ex.Do (MyClient flags Result.zero flags.connectTimeout flags.readTimeout
      flags.writeTimeout) history.length req) :
    Traced flags configuration ex (history ++ [r]) := by
  intro i r' hi
  by_cases hlt : i < history.length
  · rw [List.getElem?_append_left hlt] at hi
    exact hold i r' hi
  · have hge : history.length ≤ i := not_lt.mp hlt
    rw [List.getElem?_append_right hge] at hi
    have h0 : i - history.length = 0 := by
      by_contra hne
      obtain ⟨m, hm⟩ := Nat.exists_eq_succ_of_ne_zero hne
      rw [hm] at hi
      simp at hi
    have hieq : i = history.length := by omega
    rw [h0] at hi
    simp only [List.getElem?_cons_zero, Option.some.injEq] at hi
    subst hieq
    exact ⟨tmpUrl, req, hurl, hreq, by rw [← hi]; exact hr⟩

theorem url_at_position {visited rest : List String} {tmpUrl : String} {passes : Nat}
    (hurls : configuration.urls = visited ++ tmpUrl :: rest) :
    configuration.urls[(passes * configuration.urls.length + visited.length)
      % configuration.urls.length]? = some tmpUrl := by
  have hlen : configuration.urls.length = visited.length + (rest.length + 1) := by
    rw [hurls]; simp
  have hmod : (passes * configuration.urls.length + visited.length)
      % configuration.urls.length = visited.length := by
    rw [Nat.add_comm, Nat.add_mul_mod_self_right]
    exact Nat.mod_eq_of_lt (by omega)
  rw [hmod, hurls, List.getElem?_append_right (Nat.le_refl _)]
  simp

/-- From a zeroed Result the history is the executor's answers, attempt by
attempt, for the URLs in order, pass after pass. -/
theorem reachable_traced {s : State}
    (hs : Reachable flags configuration ex Result.zero s) :
    Positioned flags configuration ex s ∧ Traced flags configuration ex s.history := by
  refine Reachable.induction flags configuration ex
    (fun s => Positioned flags configuration ex s ∧ Traced flags configuration ex s.history)
    ?_ ?_ hs
  · refine ⟨by simp [Positioned, State.init], ?_⟩
    intro i r hi
    simp [State.init] at hi
  · rintro ⟨pc, result, history, passes⟩ s' ⟨hpos, htr⟩ hstep
    simp only at htr
    cases pc with
    | top =>
      simp only [Positioned] at hpos
      simp only [step] at hstep
      split at hstep
      · cases hstep
        exact ⟨⟨[], by simp, by simpa using hpos⟩, htr⟩
      · cases hstep
        exact ⟨hpos, htr⟩
    | pass rest =>
      simp only [Positioned] at hpos
      obtain ⟨visited, hurls, hlen⟩ := hpos
      cases rest with
      | nil =>
        simp only [step] at hstep
        cases hstep
        refine ⟨?_, htr⟩
        simp only [Positioned]
        rw [hlen, hurls]
        simp only [List.append_nil]
        rw [Nat.succ_mul]
      | cons u rest =>
        simp only [step] at hstep
        split at hstep
        · cases hstep
          exact ⟨trivial, htr⟩
        · rename_i req hreq
          cases hstep
          exact ⟨⟨visited, u, req, hurls, hlen, hreq, rfl⟩, htr⟩
    | called rest r =>
      simp only [Positioned] at hpos
      simp only [step] at hstep
      cases hstep
      exact ⟨hpos, htr⟩
    | counted rest r =>
      simp only [Positioned] at hpos
      obtain ⟨visited, u, req, hurls, hlen, hreq, hr⟩ := hpos
      simp only [step] at hstep
      cases hstep
      refine ⟨⟨visited ++ [u], by simp [hurls], by simp [hlen]; omega⟩, ?_⟩
      simp only
      refine traced_append flags configuration ex htr ?_ hreq hr
      rw [hlen]
      exact url_at_position configuration hurls
    | done => simp only [step] at hstep; cases hstep
    | faulted => simp only [step] at hstep; cases hstep

/-- When the first URL does not parse and the limit is positive, the worker
stops in the fault exit before any attempt: the loop is never left. -/
theorem unparsed_never_done {tmpUrl : String} {rest : List String}
    (hurls : configuration.urls = tmpUrl :: rest) (hbad : ex.parses tmpUrl = false)
    (hR : 0 < configuration.requests) {s : State}
    (hs : Reachable flags configuration ex Result.zero s) :
    s.pc ≠ Pc.done ∧ s.history = [] ∧ s.result = Result.zero := by
  have hinv : (s.pc = Pc.top ∨ s.pc = Pc.pass configuration.urls ∨ s.pc = Pc.faulted) ∧
      s.history = [] ∧ s.result = Result.zero := by
    refine Reachable.induction flags configuration ex
      (fun s => (s.pc = Pc.top ∨ s.pc = Pc.pass configuration.urls ∨ s.pc = Pc.faulted) ∧
        s.history = [] ∧ s.result = Result.zero) ⟨Or.inl rfl, rfl, rfl⟩ ?_ hs
    rintro ⟨pc, result, history, passes⟩ s' ⟨hpc, hh, hres⟩ hstep
    simp only at hpc hh hres
    subst hh hres
    rcases hpc with rfl | rfl | rfl
    · have hlt : Result.zero.requests < configuration.requests := hR
      simp only [step, hlt, if_true] at hstep
      cases hstep
      exact ⟨Or.inr (Or.inl rfl), rfl, rfl⟩
    · rw [hurls] at hstep
      simp only [step, newRequest, hbad, Bool.false_eq_true, if_false] at hstep
      cases hstep
      exact ⟨Or.inr (Or.inr rfl), rfl, rfl⟩
    · simp only [step] at hstep
      cases hstep
  refine ⟨?_, hinv.2⟩
  rcases hinv.1 with h | h | h <;> (rw [h]; exact fun hc => by cases hc)

end Trace

/-! ## The worker: claims -/

/-- C1, as stated, fails: with one URL and limit 1, the state right after
`result.requests++` (line 280) has `requests == 1` while `success`,
`networkFailed` and `badFailed` are still 0. -/
theorem client_balance_counterexample :
    ¬ ∀ (flags : Flags) (configuration : Configuration) (ex : Executor) (s : State),
        Reachable flags configuration ex Result.zero s → balanced s.result := by
  intro h
  have hbal := h Flags.defaults (sampleConfiguration ["http://a/"] 1) (alwaysStatus 200)
    ⟨.counted [] (.response ⟨200, none⟩), ⟨1, 0, 0, 0, 0, 0⟩, [], 0⟩ ⟨3, by decide⟩
  revert hbal
  decide

/-- C1, amended: in every state reachable from a zeroed Result, for every
configuration and executor, `requests == success + networkFailed + badFailed`
holds (as the Go int64 comparison) at every program point except the one
between `result.requests++` and the classification of the attempt, where
`requests == success + networkFailed + badFailed + 1` holds instead; as long
as fewer than `(1 << 63) - 1` attempts were classified the same equations hold
for the sums as integers. -/
theorem client_balance (flags : Flags) (configuration : Configuration) (ex : Executor)
    (s : State) (hs : Reachable flags configuration ex Result.zero s) :
    (match s.pc with
      | .counted _ _ =>
        s.result.requests = wrap64 (wrap64 (wrap64 (s.result.success
          + s.result.networkFailed) + s.result.badFailed) + 1)
      | _ => balanced s.result) ∧
    ((s.history.length : Int) < maxInt64 →
      s.result.requests = s.result.success + s.result.networkFailed + s.result.badFailed
        + s.pc.pending) := by
  obtain ⟨h1, h2, h3, h4⟩ := reachable_tallied flags configuration ex hs
  have hpart := countP_partition s.history
  have hlen : (s.history.length : Int) = (s.history.countP isSuccess : Int)
      + (s.history.countP isNetworkFailure : Int) + (s.history.countP isBad : Int) := by
    exact_mod_cast hpart.symm
  have hsum : ∀ p : Int, wrap64 (wrap64 (wrap64 (s.result.success + s.result.networkFailed)
      + s.result.badFailed) + p) = wrap64 ((s.history.length : Int) + p) := by
    intro p
    rw [h1, h2, h3, hlen]
    simp only [wrap64_wrap64_add, wrap64_add_wrap64]
  constructor
  · cases hpc : s.pc with
    | counted rest r =>
      simp only [hpc, Pc.pending] at h4 ⊢
      rw [h4, hsum 1]
    | top =>
      simp only [hpc, Pc.pending, balanced] at h4 ⊢
      rw [h4, ← hsum 0, add_zero, wrap64_idem]
    | pass rest =>
      simp only [hpc, Pc.pending, balanced] at h4 ⊢
      rw [h4, ← hsum 0, add_zero, wrap64_idem]
    | called rest r =>
      simp only [hpc, Pc.pending, balanced] at h4 ⊢
      rw [h4, ← hsum 0, add_zero, wrap64_idem]
    | done =>
      simp only [hpc, Pc.pending, balanced] at h4 ⊢
      rw [h4, ← hsum 0, add_zero, wrap64_idem]
    | faulted =>
      simp only [hpc, Pc.pending, balanced] at h4 ⊢
      rw [h4, ← hsum 0, add_zero, wrap64_idem]
  · intro hsmall
    have hpend : s.pc.pending = 0 ∨ s.pc.pending = 1 := by
      cases s.pc <;> simp [Pc.pending]
    have ha : (0 : Int) ≤ (s.history.countP isSuccess : Int) := Int.ofNat_nonneg _
    have hb : (0 : Int) ≤ (s.history.countP isNetworkFailure : Int) := Int.ofNat_nonneg _
    have hc : (0 : Int) ≤ (s.history.countP isBad : Int) := Int.ofNat_nonneg _
    unfold maxInt64 at hsmall
    have hin : ∀ x : Int, 0 ≤ x → x ≤ (s.history.length : Int) + 1 → wrap64 x = x := by
      intro x hx0 hx1
      apply wrap64_of_isInt64
      unfold isInt64 minInt64 maxInt64
      constructor <;> omega
    rw [h1, h2, h3, h4, hin _ ha (by omega), hin _ hb (by omega), hin _ hc (by omega),
      hin _ (by omega) (by omega)]
    omega

/-- Witness for C1 amended: the state right after the first `requests++`. -/
theorem client_balance_witness :
    Reachable Flags.defaults (sampleConfiguration ["http://a/"] 1) (alwaysStatus 200)
      Result.zero ⟨.counted [] (.response ⟨200, none⟩), ⟨1, 0, 0, 0, 0, 0⟩, [], 0⟩ ∧
    (1 : Int) = wrap64 (wrap64 (wrap64 (0 + 0) + 0) + 1) :=
  ⟨⟨3, by decide⟩,
    (client_balance Flags.defaults (sampleConfiguration ["http://a/"] 1) (alwaysStatus 200)
      ⟨.counted [] (.response ⟨200, none⟩), ⟨1, 0, 0, 0, 0, 0⟩, [], 0⟩ ⟨3, by decide⟩).1⟩

/-- C9: the worker never changes the throughput counters: in every state
reachable from any initial Result `r0`, `readThroughput` and `writeThroughput`
are those of `r0`; and the client `MyClient` builds does not depend on its
Result and timeout arguments. -/
theorem client_throughput_frame (flags : Flags) (configuration : Configuration)
    (ex : Executor) (r0 : Result) (s : State)
    (hs : Reachable flags configuration ex r0 s) :
    s.result.readThroughput = r0.readThroughput ∧
    s.result.writeThroughput = r0.writeThroughput ∧
    (∀ (result : Result) (connectTimeout readTimeout writeTimeout : Int),
      MyClient flags result connectTimeout readTimeout writeTimeout
        = MyClient flags r0 flags.connectTimeout flags.readTimeout flags.writeTimeout) := by
  have h := reachable_throughput flags configuration ex hs
  exact ⟨h.1, h.2, fun _ _ _ _ => rfl⟩

/-- Witness for C9: a worker started on throughputs 40 and 50 ends, after one
request answered 404, with throughputs 40 and 50. -/
theorem client_throughput_frame_witness :
    Reachable Flags.defaults (sampleConfiguration ["http://a/"] 1) (alwaysStatus 404)
      ⟨0, 0, 0, 0, 40, 50⟩ ⟨.done, ⟨1, 0, 0, 1, 40, 50⟩, [.response ⟨404, none⟩], 1⟩ ∧
    (State.mk .done ⟨1, 0, 0, 1, 40, 50⟩ [.response ⟨404, none⟩] 1).result.readThroughput
      = 40 ∧
    (State.mk .done ⟨1, 0, 0, 1, 40, 50⟩ [.response ⟨404, none⟩] 1).result.writeThroughput
      = 50 :=
  have h := client_throughput_frame Flags.defaults (sampleConfiguration ["http://a/"] 1)
    (alwaysStatus 404) ⟨0, 0, 0, 0, 40, 50⟩
    ⟨.done, ⟨1, 0, 0, 1, 40, 50⟩, [.response ⟨404, none⟩], 1⟩ ⟨6, by decide⟩
  ⟨⟨6, by decide⟩, h.1, h.2.1⟩

/-- C2, as stated, fails, in two ways. Even when every URL parses: with limit
`(1 << 63) - 1` (a valid `-r`, and the limit of a period-based run) and two
URLs the count stays even and wraps around, so the loop is never left. Even
when the count fits: with the single URL `":"`, which `http.NewRequest`
rejects, and limit 1 the worker exits the process with code 1 before its first
attempt. -/
theorem client_request_limit_counterexample :
    (¬ ∀ (flags : Flags) (configuration : Configuration) (ex : Executor),
        (∀ tmpUrl ∈ configuration.urls, ex.parses tmpUrl = true) →
        1 ≤ configuration.urls.length → 0 ≤ configuration.requests →
        isInt64 configuration.requests →
        ∃ s, Reachable flags configuration ex Result.zero s ∧ s.pc = Pc.done ∧
          (((configuration.urls.length : Int) ∣ configuration.requests →
            s.result.requests = configuration.requests) ∧
           (¬ ((configuration.urls.length : Int) ∣ configuration.requests) →
            configuration.requests < s.result.requests ∧
            s.result.requests ≤ configuration.requests + (configuration.urls.length - 1)))) ∧
    (¬ ∀ (flags : Flags) (configuration : Configuration) (ex : Executor),
        ((passesNeeded configuration.requests configuration.urls.length
          * configuration.urls.length : Nat) : Int) ≤ maxInt64 →
        1 ≤ configuration.urls.length → 0 ≤ configuration.requests →
        isInt64 configuration.requests →
        ∃ s, Reachable flags configuration ex Result.zero s ∧ s.pc = Pc.done ∧
          (((configuration.urls.length : Int) ∣ configuration.requests →
            s.result.requests = configuration.requests) ∧
           (¬ ((configuration.urls.length : Int) ∣ configuration.requests) →
            configuration.requests < s.result.requests ∧
            s.result.requests ≤ configuration.requests
              + (configuration.urls.length - 1)))) := by
  constructor
  · intro h
    obtain ⟨s, hs, hdone, _⟩ := h Flags.defaults
      (sampleConfiguration ["http://a/", "http://b/"] maxInt64) (alwaysStatus 200)
      (by decide) (by decide) (by decide) (by decide)
    exact two_urls_never_done Flags.defaults
      (sampleConfiguration ["http://a/", "http://b/"] maxInt64) (alwaysStatus 200) rfl rfl
      hs hdone
  · intro h
    obtain ⟨s, hs, hdone, _⟩ := h Flags.defaults (sampleConfiguration [":"] 1)
      (alwaysStatus 200) (by decide) (by decide) (by decide) (by decide)
    exact (unparsed_never_done Flags.defaults (sampleConfiguration [":"] 1)
      (alwaysStatus 200) rfl rfl (by decide) hs).1 hdone

/-- C2, amended: for every limit `R >= 0` and `U >= 1` URLs, all of which
`http.NewRequest` accepts, such that the first multiple of `U` that is at
least `R` is an int64 (always so when `R` is a multiple of `U`), the loop
started from a zeroed Result terminates, in a unique final state, with
`requests` equal to that multiple: `requests == R` when `U` divides `R`, and
`R < requests <= R + (U - 1)` otherwise. The limit is tested only at the top
of the outer loop: in the middle of a pass the next URL is taken whatever the
counters are, and the loop is left only from the top. -/
theorem client_request_limit (flags : Flags) (configuration : Configuration) (ex : Executor)
    (hparse : ∀ tmpUrl ∈ configuration.urls, ex.parses tmpUrl = true)
    (hU : 1 ≤ configuration.urls.length) (hR : 0 ≤ configuration.requests)
    (hfit : ((passesNeeded configuration.requests configuration.urls.length
      * configuration.urls.length : Nat) : Int) ≤ maxInt64) :
    (∃ s, Reachable flags configuration ex Result.zero s ∧ s.pc = Pc.done ∧
      s.result.requests = ((passesNeeded configuration.requests configuration.urls.length
        * configuration.urls.length : Nat) : Int) ∧
      ((configuration.urls.length : Int) ∣ configuration.requests →
        s.result.requests = configuration.requests) ∧
      (¬ ((configuration.urls.length : Int) ∣ configuration.requests) →
        configuration.requests < s.result.requests ∧
        s.result.requests ≤ configuration.requests + (configuration.urls.length - 1)) ∧
      (∀ s', Reachable flags configuration ex Result.zero s' → s'.pc = Pc.done → s' = s)) ∧
    (∀ (s : State) tmpUrl rest, s.pc = Pc.pass (tmpUrl :: rest) →
      ex.parses tmpUrl = true →
      ∃ r, step flags configuration ex s = some { s with pc := Pc.called rest r }) ∧
    (∀ s s', step flags configuration ex s = some s' → s'.pc = Pc.done → s.pc = Pc.top) := by
  obtain ⟨hge, hle, _⟩ :=
    passesNeeded_spec configuration.requests configuration.urls.length hU hR
  obtain ⟨s, hs, hdone, hpass, _, hreq⟩ := client_run flags configuration ex hparse hU hR hfit
  rw [hpass] at hreq
  refine ⟨⟨s, hs, hdone, hreq, ?_, ?_, ?_⟩, ?_, ?_⟩
  · intro hdvd
    rw [hreq]
    have hdvd2 : (configuration.urls.length : Int)
        ∣ ((passesNeeded configuration.requests configuration.urls.length
          * configuration.urls.length : Nat) : Int) := by
      rw [Nat.cast_mul]; exact Dvd.intro_left _ rfl
    have hUpos : (0 : Int) < (configuration.urls.length : Int) := by exact_mod_cast hU
    generalize ((passesNeeded configuration.requests configuration.urls.length
      * configuration.urls.length : Nat) : Int) = T at hge hle hdvd2 ⊢
    generalize configuration.requests = R at hge hle hdvd ⊢
    generalize (configuration.urls.length : Int) = V at hge hle hdvd hdvd2 hUpos ⊢
    obtain ⟨a, ha⟩ := hdvd
    obtain ⟨b, hb⟩ := hdvd2
    subst ha hb
    have hab : a ≤ b := le_of_mul_le_mul_left hge hUpos
    have hba : b < a + 1 := by
      have : V * b < V * (a + 1) := by
        rw [mul_add, mul_one]; omega
      exact lt_of_mul_lt_mul_left this (le_of_lt hUpos)
    have : a = b := by omega
    rw [this]
  · intro hndvd
    rw [hreq]
    refine ⟨lt_of_le_of_ne hge ?_, hle⟩
    intro heq
    apply hndvd
    rw [heq, Nat.cast_mul]
    exact Dvd.intro_left _ rfl
  · intro s' hs' hd'
    exact reachable_final_unique flags configuration ex hs hdone hs' hd'
  · rintro ⟨pc, result, history, passes⟩ tmpUrl rest hpc hok
    simp only at hpc
    subst hpc
    refine ⟨ex.Do (MyClient flags result flags.connectTimeout flags.readTimeout
      flags.writeTimeout) history.length (buildRequest configuration tmpUrl), ?_⟩
    simp only [step, newRequest, hok, if_true]
  · rintro ⟨pc, result, history, passes⟩ s' hstep hd
    cases pc with
    | top => rfl
    | pass rest =>
      cases rest with
      | nil => simp only [step] at hstep; cases hstep; cases hd
      | cons u rest => simp only [step] at hstep; split at hstep <;> (cases hstep; cases hd)
    | called rest r => simp only [step] at hstep; cases hstep; cases hd
    | counted rest r => simp only [step] at hstep; cases hstep; cases hd
    | done => simp only [step] at hstep; cases hstep
    | faulted => simp only [step] at hstep; cases hstep

/-- Witness for C2 amended: limit 3 over two URLs ends with 4 requests. -/
theorem client_request_limit_witness :
    ∃ s, Reachable Flags.defaults (sampleConfiguration ["http://a/", "http://b/"] 3)
        (alwaysStatus 200) Result.zero s ∧ s.pc = Pc.done ∧ s.result.requests = 4 :=
  have h := (client_request_limit Flags.defaults
    (sampleConfiguration ["http://a/", "http://b/"] 3) (alwaysStatus 200)
    (by decide) (by decide) (by decide) (by decide)).1
  h.elim fun s hs => ⟨s, hs.1, hs.2.1, hs.2.2.1⟩

/-- The run with one URL, which parses, and a limit `0 <= R <= (1 << 63) - 1`: it
ends after `R` attempts, tallied, with the throughput counters untouched. -/
theorem single_url_run (flags : Flags) (configuration : Configuration) (ex : Executor)
    (hU : configuration.urls.length = 1)
    (hparse : ∀ tmpUrl ∈ configuration.urls, ex.parses tmpUrl = true)
    (hR : 0 ≤ configuration.requests) (hmax : configuration.requests ≤ maxInt64) :
    ∃ s, Reachable flags configuration ex Result.zero s ∧ s.pc = Pc.done ∧ Tallied s ∧
      s.result.requests = configuration.requests ∧
      wrap64 (s.history.length : Int) = configuration.requests ∧
      s.result.readThroughput = 0 ∧ s.result.writeThroughput = 0 := by
  obtain ⟨hge, hle, _⟩ :=
    passesNeeded_spec configuration.requests configuration.urls.length (by omega) hR
  have hfit : ((passesNeeded configuration.requests configuration.urls.length
      * configuration.urls.length : Nat) : Int) ≤ maxInt64 := by
    rw [hU] at hle ⊢
    simp only [Nat.cast_one, sub_self, add_zero] at hle
    omega
  obtain ⟨s, hs, hdone, hpass, hlen, hreq⟩ :=
    client_run flags configuration ex hparse (by omega) hR hfit
  have hfr := reachable_throughput flags configuration ex hs
  have htal := reachable_tallied flags configuration ex hs
  have hk : s.result.requests = configuration.requests := by
    rw [hreq, hpass]
    rw [hU] at hle hge ⊢
    simp only [Nat.cast_one, sub_self, add_zero] at hle
    omega
  refine ⟨s, hs, hdone, htal, hk, ?_, hfr.1, hfr.2⟩
  have h4 := htal.2.2.2
  simp only [hdone, Pc.pending, add_zero] at h4
  rw [← h4, hk]

theorem result_eq_of_fields {r : Result} {a b c d e f : Int} (h1 : r.requests = a)
    (h2 : r.success = b) (h3 : r.networkFailed = c) (h4 : r.badFailed = d)
    (h5 : r.readThroughput = e) (h6 : r.writeThroughput = f) : r = ⟨a, b, c, d, e, f⟩ := by
  cases r
  simp_all

/-- C4, as stated, fails, in two ways. For runs longer than an int64 can
count, even when every URL parses: with the limit `(1 << 63) - 1`, three URLs
and every attempt answered 200, the count wraps around twice and the loop ends
after 46116860184273879039 attempts with `success == 9223372036854775807`. And
in the one-URL scenario: with the URL `":"`, which `http.NewRequest` rejects,
limit 1 and every answer 200, the worker exits the process with code 1 before
its first attempt, so no run ends with `requests = success = 1`. -/
theorem client_classification_counterexample :
    (¬ ∀ (flags : Flags) (configuration : Configuration) (ex : Executor) (s : State),
        (∀ tmpUrl ∈ configuration.urls, ex.parses tmpUrl = true) →
        Reachable flags configuration ex Result.zero s → s.pc = Pc.done →
        s.result.success = (s.history.countP isSuccess : Int) ∧
        s.result.badFailed = (s.history.countP isBad : Int) ∧
        s.result.networkFailed = (s.history.countP isNetworkFailure : Int)) ∧
    (¬ ∀ (flags : Flags) (configuration : Configuration) (ex : Executor),
        configuration.urls.length = 1 → 0 ≤ configuration.requests →
        configuration.requests ≤ maxInt64 →
        (∀ c i q, ex.Do c i q = .response ⟨200, none⟩) →
        ∃ s, Reachable flags configuration ex Result.zero s ∧ s.pc = Pc.done ∧
          s.result = ⟨configuration.requests, configuration.requests, 0, 0, 0, 0⟩) := by
  constructor
  · intro h
    have hU : (sampleConfiguration ["http://a/", "http://b/", "http://c/"]
        maxInt64).urls.length = 3 := rfl
    have hR : (sampleConfiguration ["http://a/", "http://b/", "http://c/"]
        maxInt64).requests = 9223372036854775807 := rfl
    have hparse : ∀ tmpUrl ∈ (sampleConfiguration ["http://a/", "http://b/", "http://c/"]
        maxInt64).urls, (alwaysStatus 200).parses tmpUrl = true := by decide
    obtain ⟨s, hs, hdone, _, hlen, _⟩ := run_ends_after Flags.defaults
      (sampleConfiguration ["http://a/", "http://b/", "http://c/"] maxInt64)
      (alwaysStatus 200) 15372286728091293013 hparse
      (by
        intro j hj
        rw [hU, hR]
        exact wrap64_three_mul_lt j hj)
      (by
        rw [hU, hR]
        unfold wrap64
        norm_num)
    have hclaim := (h _ _ _ s hparse hs hdone).1
    have htal := (reachable_tallied _ _ _ hs).1
    have hall := (reachable_answers Flags.defaults
      (sampleConfiguration ["http://a/", "http://b/", "http://c/"] maxInt64)
      (alwaysStatus 200) (fun r => isSuccess r = true) (fun _ _ _ => rfl) hs).1
    have hcount := List.countP_eq_length.mpr hall
    rw [hU] at hlen
    rw [hclaim, hcount, hlen] at htal
    unfold wrap64 at htal
    norm_num at htal
  · intro h
    obtain ⟨s, hs, hdone, _⟩ := h Flags.defaults (sampleConfiguration [":"] 1)
      (alwaysStatus 200) rfl (by decide) (by decide) (fun _ _ _ => rfl)
    exact (unparsed_never_done Flags.defaults (sampleConfiguration [":"] 1)
      (alwaysStatus 200) rfl rfl (by decide) hs).1 hdone

/-- C4, amended: in every final state of a run from a zeroed Result every
attempt is classified exactly once: the history of classified attempts is the
executor's answers, attempt by attempt, for the URLs in order; the three
classes partition it; and each counter is the int64 value of its count:
`success` of the attempts answered 200 with the body drained, `badFailed` of
those answered another status with the body drained, `networkFailed` of those
with a transport or drain error, `requests` of all; the counters equal the
counts exactly when the run made at most `(1 << 63) - 1` attempts. With one
URL, which `http.NewRequest` accepts, and a limit `0 <= R <= (1 << 63) - 1`
the run ends, with `requests = success = R` if every answer is 200,
`requests = badFailed = R` if every answer is one other status,
`requests = networkFailed = R` if every attempt fails at the transport, and
the other counters 0. -/
theorem client_classification (flags : Flags) (configuration : Configuration)
    (ex : Executor) :
    (∀ s, Reachable flags configuration ex Result.zero s → s.pc = Pc.done →
      Traced flags configuration ex s.history ∧
      s.history.countP isSuccess + s.history.countP isNetworkFailure
          + s.history.countP isBad = s.history.length ∧
      s.result.requests = wrap64 (s.history.length : Int) ∧
      s.result.success = wrap64 (s.history.countP isSuccess : Int) ∧
      s.result.badFailed = wrap64 (s.history.countP isBad : Int) ∧
      s.result.networkFailed = wrap64 (s.history.countP isNetworkFailure : Int) ∧
      ((s.history.length : Int) ≤ maxInt64 →
        s.result.requests = (s.history.length : Int) ∧
        s.result.success = (s.history.countP isSuccess : Int) ∧
        s.result.badFailed = (s.history.countP isBad : Int) ∧
        s.result.networkFailed = (s.history.countP isNetworkFailure : Int))) ∧
    (configuration.urls.length = 1 →
      (∀ tmpUrl ∈ configuration.urls, ex.parses tmpUrl = true) →
      0 ≤ configuration.requests → configuration.requests ≤ maxInt64 →
      ((∀ c i q, ex.Do c i q = .response ⟨200, none⟩) →
        ∃ s, Reachable flags configuration ex Result.zero s ∧ s.pc = Pc.done ∧
          s.result = ⟨configuration.requests, configuration.requests, 0, 0, 0, 0⟩) ∧
      (∀ code, code ≠ 200 → (∀ c i q, ex.Do c i q = .response ⟨code, none⟩) →
        ∃ s, Reachable flags configuration ex Result.zero s ∧ s.pc = Pc.done ∧
          s.result = ⟨configuration.requests, 0, 0, configuration.requests, 0, 0⟩) ∧
      ((∀ c i q, ∃ e, ex.Do c i q = .failed e) →
        ∃ s, Reachable flags configuration ex Result.zero s ∧ s.pc = Pc.done ∧
          s.result = ⟨configuration.requests, 0, configuration.requests, 0, 0, 0⟩)) := by
  have hw0 : wrap64 ((0 : Nat) : Int) = 0 := by simp [wrap64]
  constructor
  · intro s hs hdone
    obtain ⟨h1, h2, h3, h4⟩ := reachable_tallied flags configuration ex hs
    simp only [hdone, Pc.pending, add_zero] at h4
    have hpart := countP_partition s.history
    refine ⟨(reachable_traced flags configuration ex hs).2, hpart, h4, h1, h3, h2, ?_⟩
    intro hlen
    have hin : ∀ n : Nat, n ≤ s.history.length → wrap64 (n : Int) = n := by
      intro n hn
      apply wrap64_of_isInt64
      have : (n : Int) ≤ s.history.length := by exact_mod_cast hn
      unfold isInt64 minInt64
      constructor <;> omega
    rw [h1, h2, h3, h4]
    exact ⟨hin _ (Nat.le_refl _), hin _ (by omega), hin _ (by omega), hin _ (by omega)⟩
  · intro hU hparse hR hmax
    obtain ⟨s, hs, hdone, ⟨h1, h2, h3, _⟩, hreq, hlen, hrt, hwt⟩ :=
      single_url_run flags configuration ex hU hparse hR hmax
    refine ⟨?_, ?_, ?_⟩
    · intro hex
      have hall := (reachable_answers flags configuration ex (fun r => isSuccess r = true)
        (fun c i q => by rw [hex]; rfl) hs).1
      have hnf := (reachable_answers flags configuration ex
        (fun r => ¬ isNetworkFailure r = true) (fun c i q => by rw [hex]; simp [isNetworkFailure])
        hs).1
      have hbad := (reachable_answers flags configuration ex (fun r => ¬ isBad r = true)
        (fun c i q => by rw [hex]; simp [isBad]) hs).1
      rw [List.countP_eq_length.mpr hall, hlen] at h1
      rw [List.countP_eq_zero.mpr hnf, hw0] at h2
      rw [List.countP_eq_zero.mpr hbad, hw0] at h3
      exact ⟨s, hs, hdone, result_eq_of_fields hreq h1 h2 h3 hrt hwt⟩
    · intro code hcode hex
      have hall := (reachable_answers flags configuration ex (fun r => isBad r = true)
        (fun c i q => by rw [hex]; simp [isBad, hcode]) hs).1
      have hnf := (reachable_answers flags configuration ex
        (fun r => ¬ isNetworkFailure r = true) (fun c i q => by rw [hex]; simp [isNetworkFailure])
        hs).1
      have hsu := (reachable_answers flags configuration ex (fun r => ¬ isSuccess r = true)
        (fun c i q => by rw [hex]; simp [isSuccess, hcode]) hs).1
      rw [List.countP_eq_zero.mpr hsu, hw0] at h1
      rw [List.countP_eq_zero.mpr hnf, hw0] at h2
      rw [List.countP_eq_length.mpr hall, hlen] at h3
      exact ⟨s, hs, hdone, result_eq_of_fields hreq h1 h2 h3 hrt hwt⟩
    · intro hex
      have hall := (reachable_answers flags configuration ex
        (fun r => isNetworkFailure r = true)
        (fun c i q => by obtain ⟨e, he⟩ := hex c i q; rw [he]; rfl) hs).1
      have hbad := (reachable_answers flags configuration ex (fun r => ¬ isBad r = true)
        (fun c i q => by obtain ⟨e, he⟩ := hex c i q; rw [he]; simp [isBad]) hs).1
      have hsu := (reachable_answers flags configuration ex (fun r => ¬ isSuccess r = true)
        (fun c i q => by obtain ⟨e, he⟩ := hex c i q; rw [he]; simp [isSuccess]) hs).1
      rw [List.countP_eq_zero.mpr hsu, hw0] at h1
      rw [List.countP_eq_length.mpr hall, hlen] at h2
      rw [List.countP_eq_zero.mpr hbad, hw0] at h3
      exact ⟨s, hs, hdone, result_eq_of_fields hreq h1 h2 h3 hrt hwt⟩

/-- Witness for C4 amended: the three scenarios of the specification, limit 10
with status 200, limit 5 with status 404, limit 3 with the connection refused. -/
theorem client_classification_witness :
    (∃ s, Reachable Flags.defaults (sampleConfiguration ["http://a/"] 10) (alwaysStatus 200)
        Result.zero s ∧ s.pc = Pc.done ∧ s.result = ⟨10, 10, 0, 0, 0, 0⟩) ∧
    (∃ s, Reachable Flags.defaults (sampleConfiguration ["http://a/"] 5) (alwaysStatus 404)
        Result.zero s ∧ s.pc = Pc.done ∧ s.result = ⟨5, 0, 0, 5, 0, 0⟩) ∧
    (∃ s, Reachable Flags.defaults (sampleConfiguration ["http://a/"] 3) alwaysRefused
        Result.zero s ∧ s.pc = Pc.done ∧ s.result = ⟨3, 0, 3, 0, 0, 0⟩) :=
  ⟨((client_classification Flags.defaults (sampleConfiguration ["http://a/"] 10)
      (alwaysStatus 200)).2 rfl (by decide) (by decide) (by decide)).1 (fun _ _ _ => rfl),
    ((client_classification Flags.defaults (sampleConfiguration ["http://a/"] 5)
      (alwaysStatus 404)).2 rfl (by decide) (by decide) (by decide)).2.1 404 (by decide)
      (fun _ _ _ => rfl),
    ((client_classification Flags.defaults (sampleConfiguration ["http://a/"] 3)
      alwaysRefused).2 rfl (by decide) (by decide) (by decide)).2.2 (fun _ _ _ => ⟨_, rfl⟩)⟩

/-- C10, as stated, fails, in two ways: a positive limit and a non-empty URL
sequence do not ensure that the loop ends. Even when every URL parses: with
limit `(1 << 63) - 1` and two URLs the count wraps around and the loop is never
left. Even when the count fits: with the single URL `":"`, which
`http.NewRequest` rejects, and limit 1 the worker exits the process with code
1 in its first pass. -/
theorem client_termination_counterexample :
    (¬ ∀ (flags : Flags) (configuration : Configuration) (ex : Executor),
        (∀ tmpUrl ∈ configuration.urls, ex.parses tmpUrl = true) →
        isInt64 configuration.requests →
        (Terminates flags configuration ex Result.zero ↔
          (configuration.requests ≤ 0 ∨ configuration.urls ≠ []))) ∧
    (¬ ∀ (flags : Flags) (configuration : Configuration) (ex : Executor),
        ((passesNeeded configuration.requests configuration.urls.length
          * configuration.urls.length : Nat) : Int) ≤ maxInt64 →
        isInt64 configuration.requests →
        (Terminates flags configuration ex Result.zero ↔
          (configuration.requests ≤ 0 ∨ configuration.urls ≠ []))) := by
  constructor
  · intro h
    obtain ⟨s, hs, hdone⟩ := (h Flags.defaults
      (sampleConfiguration ["http://x/", "http://y/"] maxInt64) alwaysRefused
      (by decide) (by decide)).mpr (Or.inr (by decide))
    exact two_urls_never_done Flags.defaults
      (sampleConfiguration ["http://x/", "http://y/"] maxInt64) alwaysRefused rfl rfl
      hs hdone
  · intro h
    obtain ⟨s, hs, hdone⟩ := (h Flags.defaults (sampleConfiguration [":"] 1) alwaysRefused
      (by decide) (by decide)).mpr (Or.inr (by decide))
    exact (unparsed_never_done Flags.defaults (sampleConfiguration [":"] 1) alwaysRefused
      rfl rfl (by decide) hs).1 hdone

/-- C10, amended: from a zeroed Result, with a limit `<= 0` the loop ends at
once with zero requests; with a limit `R > 0` over `U >= 1` URLs, all of which
`http.NewRequest` accepts, such that the first multiple of `U` that is at
least `R` is an int64, it ends after exactly `ceil(R / U)` full passes of `U`
requests each; with a limit `> 0` and no URL it never ends, every state having
a successor and zero requests. So a run that ends has a limit `<= 0` or a
non-empty URL sequence. -/
theorem client_termination (flags : Flags) (configuration : Configuration)
    (ex : Executor) :
    (configuration.requests ≤ 0 →
      ∃ s, Reachable flags configuration ex Result.zero s ∧ s.pc = Pc.done ∧
        s.history = [] ∧ s.result = Result.zero ∧ s.passes = 0) ∧
    (0 < configuration.requests → 1 ≤ configuration.urls.length →
      (∀ tmpUrl ∈ configuration.urls, ex.parses tmpUrl = true) →
      ((passesNeeded configuration.requests configuration.urls.length
        * configuration.urls.length : Nat) : Int) ≤ maxInt64 →
      ∃ s, Reachable flags configuration ex Result.zero s ∧ s.pc = Pc.done ∧
        s.history.length = s.passes * configuration.urls.length ∧
        configuration.requests ≤ ((s.passes * configuration.urls.length : Nat) : Int) ∧
        (∀ j, j < s.passes →
          ((j * configuration.urls.length : Nat) : Int) < configuration.requests)) ∧
    (0 < configuration.requests → configuration.urls = [] →
      ∀ s, Reachable flags configuration ex Result.zero s →
        s.pc ≠ Pc.done ∧ s.result.requests = 0 ∧ s.history = [] ∧
        (step flags configuration ex s).isSome = true) ∧
    (Terminates flags configuration ex Result.zero →
      configuration.requests ≤ 0 ∨ configuration.urls ≠ []) := by
  have hspin : 0 < configuration.requests → configuration.urls = [] →
      ∀ s, Reachable flags configuration ex Result.zero s →
        s.pc ≠ Pc.done ∧ s.result.requests = 0 ∧ s.history = [] ∧
        (step flags configuration ex s).isSome = true := by
    intro hR hU s hs
    obtain ⟨hpc, hres, hhist⟩ := no_urls_spins flags configuration ex hU hR hs
    refine ⟨?_, by rw [hres]; rfl, hhist, ?_⟩
    · rcases hpc with h | h <;> (rw [h]; exact fun hc => by cases hc)
    · rcases hpc with h | h
      · simp only [step, h]; split <;> rfl
      · simp only [step, h]; rfl
  refine ⟨?_, ?_, hspin, ?_⟩
  · intro hR
    refine ⟨{ pc := .done, result := Result.zero, history := [], passes := 0 }, ⟨1, ?_⟩,
      rfl, rfl, rfl, rfl⟩
    rw [stepsN_one]
    exact step_top_ge flags configuration ex _ _ _ (by
      have : Result.zero.requests = 0 := rfl
      omega)
  · intro hR hU hparse hfit
    obtain ⟨hge, _, hlt⟩ :=
      passesNeeded_spec configuration.requests configuration.urls.length hU (le_of_lt hR)
    obtain ⟨s, hs, hdone, hpass, hlen, _⟩ :=
      client_run flags configuration ex hparse hU (le_of_lt hR) hfit
    exact ⟨s, hs, hdone, hlen, by rw [hpass]; exact hge, by rw [hpass]; exact hlt⟩
  · rintro ⟨s, hs, hdone⟩
    by_contra hcon
    push_neg at hcon
    exact (hspin hcon.1 hcon.2 s hs).1 hdone

/-- Witness for C10 amended: limit 0 ends at once; limit 3 over two URLs ends
after passes that reach 3; limit 1 without URLs never ends. -/
theorem client_termination_witness :
    (∃ s, Reachable Flags.defaults (sampleConfiguration ["http://a/"] 0) (alwaysStatus 200)
        Result.zero s ∧ s.pc = Pc.done ∧ s.history = [] ∧ s.result = Result.zero ∧
        s.passes = 0) ∧
    (∃ s, Reachable Flags.defaults (sampleConfiguration ["http://a/", "http://b/"] 3)
        (alwaysStatus 200) Result.zero s ∧ s.pc = Pc.done ∧
        s.history.length = s.passes * 2 ∧ (3 : Int) ≤ ((s.passes * 2 : Nat) : Int) ∧
        (∀ j, j < s.passes → ((j * 2 : Nat) : Int) < 3)) ∧
    (∀ s, Reachable Flags.defaults (sampleConfiguration [] 1) (alwaysStatus 200)
        Result.zero s →
      s.pc ≠ Pc.done ∧ s.result.requests = 0 ∧ s.history = [] ∧
      (step Flags.defaults (sampleConfiguration [] 1) (alwaysStatus 200) s).isSome = true) :=
  ⟨(client_termination Flags.defaults (sampleConfiguration ["http://a/"] 0)
      (alwaysStatus 200)).1 (by decide),
    (client_termination Flags.defaults (sampleConfiguration ["http://a/", "http://b/"] 3)
      (alwaysStatus 200)).2.1 (by decide) (by decide) (by decide) (by decide),
    (client_termination Flags.defaults (sampleConfiguration [] 1)
      (alwaysStatus 200)).2.2.1 (by decide) rfl⟩

end Gobench
